import Mathlib

/-!
# Memory game (`app.js`): a shallow embedding of the `MemoryGame` class

The class `MemoryGame` of `src/source/app.js` is embedded as a record of its
fields together with one Lean function per method.  The browser is made
explicit:

* `Date.now()` is an argument `now : Int` (milliseconds);
* `Math.floor(Math.random() * (i + 1))` is an argument
  `rand : (i : Nat) → Fin (i + 1)`, the index drawn at loop position `i`;
* the callbacks handed to `setTimeout(…, 1000)` by `checkForMatch` are kept in
  the queue `revertTimers`, in scheduling order (they all have the same delay,
  so the browser fires them first-in first-out);
* `localStorage['memoryHighScores']` is the field `memoryHighScores`;
* the text of the time element is the field `timeElement` (the number of
  seconds it shows).

Card references (`this.flippedCards`, the cards captured by a revert callback)
are positions in `this.cards`.  DOM styling (`classList`, `showMessage`,
`updateDisplay`, `renderCards`) carries no game state and is left out.
-/

/-- One element of `this.cards` (`createCards`, lines 122-127). -/
structure Card where
  id : Nat
  symbol : String
  isFlipped : Bool
  isMatched : Bool
deriving DecidableEq

/-- One element of the stored high-score list (`saveHighScore`, lines 256-261).
`date` is the instant that `new Date().toISOString()` renders. -/
structure HighScoreEntry where
  score : Int
  moves : Int
  time : Int
  date : Int
deriving DecidableEq

/-- The fields of a `MemoryGame` object (constructor, lines 3-10) and the parts
of the browser the methods read and write.  `completions` counts the calls of
`gameComplete` since the last `newGame`. -/
structure MemoryGame where
  cards : List Card
  flippedCards : List Nat
  matchedPairs : Nat
  moves : Nat
  score : Nat
  startTime : Int
  gameTimer : Bool
  isPaused : Bool
  timeElement : Int
  memoryHighScores : List HighScoreEntry
  revertTimers : List (Nat × Nat)
  completions : Nat
deriving DecidableEq

set_option maxRecDepth 100000

namespace MemoryGame

/-- The value of `this.symbols` (line 19): fourteen entries, the seven emoji
written twice. -/
def symbols : List String :=
  ["🎯", "🎨", "🎭", "🎪", "🎫", "🎬", "🎮", "🎯", "🎨", "🎭", "🎪", "🎫", "🎬", "🎮"]

/-- The destructuring swap `[a[i], a[j]] = [a[j], a[i]]` (line 119): both reads
happen first, then `a[i]` and `a[j]` are written in that order.  The loop only
calls it with both indices inside the array. -/
def swap {α : Type} (xs : List α) (i j : Nat) : List α :=
  match xs[i]?, xs[j]? with
  | some a, some b => (xs.set i b).set j a
  | _, _ => xs

/-- The loop `for (let i = …; i > 0; i--)` of lines 117-120, entered with the
loop variable equal to the first argument. -/
def shuffleFrom {α : Type} (rand : (i : Nat) → Fin (i + 1)) : Nat → List α → List α
  | 0, xs => xs
  | i + 1, xs => shuffleFrom rand i (swap xs (i + 1) (rand (i + 1)).val)

/-- The Fisher-Yates loop of lines 117-120 on an array `cardData`. -/
def shuffle {α : Type} (rand : (i : Nat) → Fin (i + 1)) (cardData : List α) : List α :=
  shuffleFrom rand (cardData.length - 1) cardData

/-- The callback of `cardData.map((symbol, index) => …)` (lines 122-127), applied
to the elements from position `index` on. -/
def toCards : Nat → List String → List Card
  | _, [] => []
  | index, symbol :: rest =>
    { id := index, symbol := symbol, isFlipped := false, isMatched := false } ::
      toCards (index + 1) rest

/-- The array `cardData` of lines 113-114: the first eight entries of
`this.symbols`, twice. -/
def cardData : List String :=
  let cardSymbols := symbols.take 8
  cardSymbols ++ cardSymbols

/-- The value `createCards` (lines 111-128) assigns to `this.cards`. -/
def createCards (rand : (i : Nat) → Fin (i + 1)) : List Card :=
  toCards 0 (shuffle rand cardData)

/-- The object state when the constructor reaches `this.init()` (lines 3-10);
`null` start time is the number `0` it coerces to in `Date.now() - null`. -/
def constructed (storage : List HighScoreEntry) : MemoryGame :=
  { cards := [], flippedCards := [], matchedPairs := 0, moves := 0, score := 0,
    startTime := 0, gameTimer := false, isPaused := false, timeElement := 0,
    memoryHighScores := storage, revertTimers := [], completions := 0 }

/-- The method `newGame` (lines 88-109).  Revert callbacks still queued belong to
card objects of the discarded array, so they no longer reach `this.cards`. -/
def newGame (now : Int) (rand : (i : Nat) → Fin (i + 1)) (g : MemoryGame) : MemoryGame :=
  { g with
    cards := createCards rand
    flippedCards := []
    matchedPairs := 0
    moves := 0
    score := 0
    isPaused := false
    startTime := now
    gameTimer := true
    revertTimers := []
    completions := 0 }

/-- The comparator `(a, b) => b.score - a.score` of line 264. -/
def compareScores (a b : HighScoreEntry) : Int :=
  b.score - a.score

/-- Insertion of `a` into an array already sorted by the comparator: `a` goes in
front of the first element it does not have to follow. -/
def sortInsert {α : Type} (cmp : α → α → Int) (a : α) : List α → List α
  | [] => [a]
  | b :: rest => if cmp a b ≤ 0 then a :: b :: rest else b :: sortInsert cmp a rest

/-- The built-in `Array.prototype.sort(cmp)`, which ECMAScript requires to be
stable: realised as insertion from the right, which never moves an element past
one it compares equal to. -/
def sort {α : Type} (cmp : α → α → Int) : List α → List α
  | [] => []
  | a :: rest => sortInsert cmp a (sort cmp rest)

/-- The list `saveHighScore` (lines 254-268) hands to `localStorage.setItem`,
given the stored list and the new entry. -/
def pushSortSplice (highScores : List HighScoreEntry) (newScore : HighScoreEntry) :
    List HighScoreEntry :=
  (sort compareScores (highScores ++ [newScore])).take 10

/-- The elapsed-seconds expression `Math.floor((Date.now() - this.startTime) / 1000)`
of lines 221, 259 and 289. -/
def elapsed (now : Int) (g : MemoryGame) : Int :=
  (now - g.startTime) / 1000

/-- The object literal `newScore` of lines 256-261. -/
def newScore (now : Int) (g : MemoryGame) : HighScoreEntry :=
  { score := g.score, moves := g.moves, time := elapsed now g, date := now }

/-- The method `saveHighScore` (lines 254-268). -/
def saveHighScore (now : Int) (g : MemoryGame) : MemoryGame :=
  { g with memoryHighScores := pushSortSplice g.memoryHighScores (newScore now g) }

/-- The method `gameComplete` (lines 220-240): the interval is cleared and the
high score saved. -/
def gameComplete (now : Int) (g : MemoryGame) : MemoryGame :=
  saveHighScore now { g with gameTimer := false, completions := g.completions + 1 }

/-- The assignment `card.isMatched = true` on the card object at position `i`. -/
def setMatched (cards : List Card) (i : Nat) : List Card :=
  match cards[i]? with
  | some c => cards.set i { c with isMatched := true }
  | none => cards

/-- The assignment `card.isFlipped = b` on the card object at position `i`. -/
def setFlipped (cards : List Card) (i : Nat) (b : Bool) : List Card :=
  match cards[i]? with
  | some c => cards.set i { c with isFlipped := b }
  | none => cards

/-- The method `checkForMatch` (lines 178-218).  It is only called with two
pending cards; the comparison `matchedPairs === cards.length / 2` is written
without the division. -/
def checkForMatch (now : Int) (g : MemoryGame) : MemoryGame :=
  match g.flippedCards with
  | i1 :: i2 :: _ =>
    match g.cards[i1]?, g.cards[i2]? with
    | some card1, some card2 =>
      if card1.symbol = card2.symbol then
        let g1 : MemoryGame :=
          { g with
            cards := setMatched (setMatched g.cards i1) i2
            matchedPairs := g.matchedPairs + 1
            score := g.score + 100 }
        let g2 := if 2 * g1.matchedPairs = g1.cards.length then gameComplete now g1 else g1
        { g2 with flippedCards := [] }
      else
        { g with
          revertTimers := g.revertTimers ++ [(i1, i2)]
          flippedCards := [] }
    | _, _ => g
  | _ => g

/-- The position of the object `this.cards.find(c => c.id === cardId)` returns
(line 154), if there is one. -/
def findCard (cardId : Nat) : List Card → Option Nat
  | [] => none
  | c :: rest => if c.id = cardId then some 0 else (findCard cardId rest).map (· + 1)

/-- The method `handleCardClick` (lines 151-176). -/
def handleCardClick (now : Int) (cardId : Nat) (g : MemoryGame) : MemoryGame :=
  if g.isPaused then g
  else
    match findCard cardId g.cards with
    | none => g
    | some i =>
      match g.cards[i]? with
      | none => g
      | some card =>
        if card.isFlipped || card.isMatched then g
        else if g.flippedCards.length ≥ 2 then g
        else
          let g1 : MemoryGame :=
            { g with
              cards := setFlipped g.cards i true
              flippedCards := g.flippedCards ++ [i] }
          if g1.flippedCards.length = 2 then
            checkForMatch now { g1 with moves := g1.moves + 1 }
          else g1

/-- The interval callback installed by `startTimer` (lines 287-294); it runs
only while the interval is armed. -/
def timerTick (now : Int) (g : MemoryGame) : MemoryGame :=
  if g.gameTimer && !g.isPaused then { g with timeElement := elapsed now g } else g

/-- The method `togglePause` (lines 270-284): pausing clears the interval,
resuming calls `startTimer`. -/
def togglePause (g : MemoryGame) : MemoryGame :=
  let g1 := { g with isPaused := !g.isPaused }
  if g1.isPaused then { g1 with gameTimer := false } else { g1 with gameTimer := true }

/-- The oldest queued no-match callback of lines 204-212 fires: both captured
cards get `isFlipped = false`. -/
def revertStep (g : MemoryGame) : MemoryGame :=
  match g.revertTimers with
  | [] => g
  | (i1, i2) :: rest =>
    { g with
      cards := setFlipped (setFlipped g.cards i1 false) i2 false
      revertTimers := rest }

/-- What can happen to a running game: a click on a card, a press on the pause
button, the oldest revert callback firing, a tick of the interval. -/
inductive Event where
  | click (now : Int) (cardId : Nat)
  | pause
  | revert
  | tick (now : Int)
deriving DecidableEq

/-- The effect of one event. -/
def step (g : MemoryGame) : Event → MemoryGame
  | .click now cardId => handleCardClick now cardId g
  | .pause => togglePause g
  | .revert => revertStep g
  | .tick now => timerTick now g

/-- The effect of a sequence of events, oldest first. -/
def run (g : MemoryGame) (es : List Event) : MemoryGame :=
  es.foldl step g

/-- The states a game passes through: those reached from a `newGame` by clicks,
pause presses, revert callbacks and timer ticks. -/
inductive Reachable : MemoryGame → Prop where
  | start (now : Int) (rand : (i : Nat) → Fin (i + 1)) (g0 : MemoryGame) :
      Reachable (newGame now rand g0)
  | next (g : MemoryGame) (e : Event) : Reachable g → Reachable (step g e)

/-- The draw that always picks the loop index itself, so no element moves. -/
def randSelf : (i : Nat) → Fin (i + 1) :=
  fun i => ⟨i, Nat.lt_succ_self i⟩

/-! ## Auxiliary definitions for the statements -/

/-- The state `checkForMatch` is entered with when the click on position `i`
is the second of a pair begun at `i1`. -/
def secondFlip (g : MemoryGame) (i1 i : Nat) : MemoryGame :=
  { g with
    cards := setFlipped g.cards i true
    flippedCards := [i1, i]
    moves := g.moves + 1 }

/-- The card positions captured by the queued revert callbacks. -/
def revertTargets (g : MemoryGame) : List Nat :=
  g.revertTimers.flatMap (fun p => [p.1, p.2])

/-- A card position holds a face-up card that is not matched. -/
def FaceUpUnmatched (g : MemoryGame) (k : Nat) : Prop :=
  ∃ c, g.cards[k]? = some c ∧ c.isFlipped = true ∧ c.isMatched = false

/-- What every state of a running game satisfies. -/
structure Inv (g : MemoryGame) : Prop where
  ids : ∀ (k : Nat) (c : Card), g.cards[k]? = some c → c.id = k
  deck : g.cards.length = 16
  pendingLe : g.flippedCards.length ≤ 1
  faceUp : ∀ k ∈ g.flippedCards ++ revertTargets g, FaceUpUnmatched g k
  nodup : (g.flippedCards ++ revertTargets g).Nodup
  matchedFlipped : ∀ (k : Nat) (c : Card), g.cards[k]? = some c → c.isMatched = true →
    c.isFlipped = true
  matchedCount : g.cards.countP (·.isMatched) = 2 * g.matchedPairs
  scoreEq : g.score = 100 * g.matchedPairs
  pairsLeMoves : g.matchedPairs ≤ g.moves
  completionsEq : g.completions = if 2 * g.matchedPairs = g.cards.length then 1 else 0

/-- A draw that only swaps positions 7 and 2, so that cards 0 and 2 carry the
same symbol and card 1 another one. -/
def randExample : (i : Nat) → Fin (i + 1) :=
  fun i => if h : i = 7 then ⟨2, by omega⟩ else ⟨i, Nat.lt_succ_self i⟩

/-- A new game on the unshuffled deck, started at time 0 with empty storage. -/
def freshGame : MemoryGame :=
  newGame 0 randSelf (constructed [])

/-- A new game on the deck of `randExample`. -/
def exampleGame : MemoryGame :=
  newGame 0 randExample (constructed [])

/-- Fifteen clicks on the unshuffled deck that match seven pairs and turn card 8
face-up. -/
def winningClicks : List Event :=
  [.click 1 0, .click 2 7, .click 3 1, .click 4 9, .click 5 2, .click 6 10, .click 7 3,
    .click 8 11, .click 9 4, .click 10 12, .click 11 5, .click 12 13, .click 13 6,
    .click 14 14, .click 15 8]

/-- The unshuffled game played to the end. -/
def completedGame : MemoryGame :=
  run freshGame (winningClicks ++ [.click 16000 15])

/-- An unshuffled game over an empty storage, one click before the end. -/
def lastClickFresh : MemoryGame :=
  run freshGame winningClicks

/-- A stored list of two entries, already sorted. -/
def sampleStorage : List HighScoreEntry :=
  [{ score := 800, moves := 20, time := 90, date := 7 },
    { score := 300, moves := 9, time := 40, date := 3 }]

/-- A stored list of ten entries of score 800. -/
def fullStorage : List HighScoreEntry :=
  List.replicate 10 { score := 800, moves := 8, time := 30, date := 5 }

/-- An unshuffled game over a full storage, one click before the end. -/
def lastClickGame : MemoryGame :=
  run (newGame 0 randSelf (constructed fullStorage)) winningClicks

/-! ## The shuffle -/

theorem swap_length {α : Type} (xs : List α) (i j : Nat) : (swap xs i j).length = xs.length := by
  unfold swap
  split <;> simp

theorem swap_perm {α : Type} (xs : List α) (i j : Nat) : (swap xs i j).Perm xs := by
  classical
  unfold swap
  split
  · rename_i a b hi hj
    obtain ⟨hil, hia⟩ := List.getElem?_eq_some_iff.mp hi
    obtain ⟨hjl, hjb⟩ := List.getElem?_eq_some_iff.mp hj
    rw [List.perm_iff_count]
    intro c
    have hjl2 : j < (xs.set i b).length := by simpa using hjl
    rw [List.count_set _ _ _ _ hjl2, List.count_set _ _ _ _ hil]
    have hget : (xs.set i b)[j] = b := by
      rw [List.getElem_set]
      split
      · rfl
      · exact hjb
    rw [hget, hia]
    have hmem : a ∈ xs := hia ▸ List.getElem_mem hil
    have hle : (if (a == c) = true then 1 else 0) ≤ xs.count c := by
      split
      · rename_i hac
        have : a = c := by simpa using hac
        subst this
        exact List.count_pos_iff.mpr hmem
      · exact Nat.zero_le _
    omega
  · exact List.Perm.refl _

theorem shuffleFrom_perm {α : Type} (rand : (i : Nat) → Fin (i + 1)) (i : Nat) (xs : List α) :
    (shuffleFrom rand i xs).Perm xs := by
  induction i generalizing xs with
  | zero => exact List.Perm.refl _
  | succ i ih => exact (ih _).trans (swap_perm _ _ _)

theorem shuffle_perm {α : Type} (rand : (i : Nat) → Fin (i + 1)) (xs : List α) :
    (shuffle rand xs).Perm xs :=
  shuffleFrom_perm rand _ xs

theorem toCards_getElem? (n : Nat) (xs : List String) (k : Nat) :
    (toCards n xs)[k]? =
      xs[k]?.map (fun s => { id := n + k, symbol := s, isFlipped := false, isMatched := false }) := by
  induction xs generalizing n k with
  | nil => simp [toCards]
  | cons s rest ih =>
    cases k with
    | zero => simp [toCards]
    | succ k =>
      simp only [toCards, List.getElem?_cons_succ, ih]
      congr 1
      funext s
      congr 1
      omega

theorem toCards_length (n : Nat) (xs : List String) : (toCards n xs).length = xs.length := by
  induction xs generalizing n with
  | nil => rfl
  | cons s rest ih => simp [toCards, ih]

theorem toCards_symbols (n : Nat) (xs : List String) :
    (toCards n xs).map (·.symbol) = xs := by
  induction xs generalizing n with
  | nil => rfl
  | cons s rest ih => simp [toCards, ih]

theorem createCards_length (rand : (i : Nat) → Fin (i + 1)) : (createCards rand).length = 16 := by
  unfold createCards
  rw [toCards_length, (shuffle_perm rand cardData).length_eq]
  rfl

theorem createCards_getElem? (rand : (i : Nat) → Fin (i + 1)) (k : Nat) (c : Card)
    (h : (createCards rand)[k]? = some c) :
    c.id = k ∧ c.isFlipped = false ∧ c.isMatched = false := by
  unfold createCards at h
  rw [toCards_getElem?] at h
  cases hs : (shuffle rand cardData)[k]? with
  | none => simp [hs] at h
  | some s =>
    simp [hs] at h
    subst h
    simp

/-! ## Card updates -/

theorem setFlipped_length (cards : List Card) (i : Nat) (b : Bool) :
    (setFlipped cards i b).length = cards.length := by
  unfold setFlipped
  split <;> simp

theorem setMatched_length (cards : List Card) (i : Nat) :
    (setMatched cards i).length = cards.length := by
  unfold setMatched
  split <;> simp

theorem setFlipped_getElem? (cards : List Card) (i : Nat) (b : Bool) (k : Nat) :
    (setFlipped cards i b)[k]? =
      if k = i then cards[k]?.map (fun c => { c with isFlipped := b }) else cards[k]? := by
  unfold setFlipped
  split
  · rename_i c hc
    rw [List.getElem?_set]
    by_cases hk : k = i
    · subst hk
      have hlt : k < cards.length := (List.getElem?_eq_some_iff.mp hc).1
      simp [hc, hlt]
    · have hk2 : ¬ i = k := fun h => hk h.symm
      simp [hk, hk2]
  · rename_i hc
    by_cases hk : k = i
    · subst hk
      simp [hc]
    · simp [hk]

theorem setMatched_getElem? (cards : List Card) (i : Nat) (k : Nat) :
    (setMatched cards i)[k]? =
      if k = i then cards[k]?.map (fun c => { c with isMatched := true }) else cards[k]? := by
  unfold setMatched
  split
  · rename_i c hc
    rw [List.getElem?_set]
    by_cases hk : k = i
    · subst hk
      have hlt : k < cards.length := (List.getElem?_eq_some_iff.mp hc).1
      simp [hc, hlt]
    · have hk2 : ¬ i = k := fun h => hk h.symm
      simp [hk, hk2]
  · rename_i hc
    by_cases hk : k = i
    · subst hk
      simp [hc]
    · simp [hk]

theorem setFlipped_countP_isMatched (cards : List Card) (i : Nat) (b : Bool) :
    (setFlipped cards i b).countP (·.isMatched) = cards.countP (·.isMatched) := by
  unfold setFlipped
  split
  · rename_i c hc
    obtain ⟨hlt, hget⟩ := List.getElem?_eq_some_iff.mp hc
    rw [List.countP_set _ _ _ _ hlt, hget]
    have hle := List.boole_getElem_le_countP (·.isMatched) cards i hlt
    rw [hget] at hle
    simp only at hle ⊢
    omega
  · rfl

theorem setMatched_countP_isMatched (cards : List Card) (i : Nat) (c : Card)
    (hc : cards[i]? = some c) (hm : c.isMatched = false) :
    (setMatched cards i).countP (·.isMatched) = cards.countP (·.isMatched) + 1 := by
  unfold setMatched
  rw [hc]
  obtain ⟨hlt, hget⟩ := List.getElem?_eq_some_iff.mp hc
  simp only
  rw [List.countP_set _ _ _ _ hlt, hget]
  simp [hm]

theorem setFlipped_ids (cards : List Card) (i : Nat) (b : Bool) :
    (setFlipped cards i b).map (fun c => (c.id, c.symbol)) =
      cards.map (fun c => (c.id, c.symbol)) := by
  apply List.ext_getElem?
  intro k
  rw [List.getElem?_map, List.getElem?_map, setFlipped_getElem?]
  split
  · cases cards[k]? <;> rfl
  · rfl

theorem setMatched_ids (cards : List Card) (i : Nat) :
    (setMatched cards i).map (fun c => (c.id, c.symbol)) =
      cards.map (fun c => (c.id, c.symbol)) := by
  apply List.ext_getElem?
  intro k
  rw [List.getElem?_map, List.getElem?_map, setMatched_getElem?]
  split
  · cases cards[k]? <;> rfl
  · rfl

theorem findCard_some (cardId : Nat) (cards : List Card) (i : Nat)
    (h : findCard cardId cards = some i) : ∃ c, cards[i]? = some c ∧ c.id = cardId := by
  induction cards generalizing i with
  | nil => simp [findCard] at h
  | cons c rest ih =>
    unfold findCard at h
    split at h
    · rename_i hid
      cases h
      exact ⟨c, by simp, hid⟩
    · cases hr : findCard cardId rest with
      | none => simp [hr] at h
      | some j =>
        simp [hr] at h
        subst h
        simpa using ih j hr

theorem findCard_none (cardId : Nat) (cards : List Card) :
    findCard cardId cards = none ↔ ∀ c ∈ cards, c.id ≠ cardId := by
  induction cards with
  | nil => simp [findCard]
  | cons c rest ih =>
    unfold findCard
    by_cases hid : c.id = cardId
    · simp [hid]
    · simp [hid, ih]

/-- In a deck whose ids are the positions, `find` returns the card at position
`cardId`. -/
theorem findCard_of_ids (cardId : Nat) (cards : List Card)
    (hids : ∀ (k : Nat) (c : Card), cards[k]? = some c → c.id = k) (i : Nat)
    (h : findCard cardId cards = some i) : i = cardId := by
  obtain ⟨c, hc, hid⟩ := findCard_some cardId cards i h
  rw [← hid]
  exact (hids i c hc).symm

theorem findCard_of_ids_some (cardId : Nat) (cards : List Card)
    (hids : ∀ (k : Nat) (c : Card), cards[k]? = some c → c.id = k) (c : Card)
    (hc : cards[cardId]? = some c) : findCard cardId cards = some cardId := by
  cases hf : findCard cardId cards with
  | none =>
    have := (findCard_none cardId cards).mp hf c (List.getElem?_mem hc)
    exact absurd (hids cardId c hc) this
  | some i => rw [findCard_of_ids cardId cards hids i hf]

/-! ## What a click does -/

theorem click_paused (now : Int) (cardId : Nat) (g : MemoryGame) (h : g.isPaused = true) :
    handleCardClick now cardId g = g := by
  simp [handleCardClick, h]

theorem click_unknown (now : Int) (cardId : Nat) (g : MemoryGame)
    (h : findCard cardId g.cards = none) : handleCardClick now cardId g = g := by
  simp [handleCardClick, h]

theorem click_shown (now : Int) (cardId : Nat) (g : MemoryGame) (i : Nat) (c : Card)
    (hf : findCard cardId g.cards = some i) (hc : g.cards[i]? = some c)
    (h : c.isFlipped = true ∨ c.isMatched = true) : handleCardClick now cardId g = g := by
  unfold handleCardClick
  split
  · rfl
  · simp only [hf, hc]
    rcases h with h | h <;> simp [h]

theorem click_first (now : Int) (cardId : Nat) (g : MemoryGame) (i : Nat) (c : Card)
    (hp : g.isPaused = false) (hf : findCard cardId g.cards = some i)
    (hc : g.cards[i]? = some c) (hfl : c.isFlipped = false) (hm : c.isMatched = false)
    (h0 : g.flippedCards = []) :
    handleCardClick now cardId g =
      { g with cards := setFlipped g.cards i true, flippedCards := [i] } := by
  simp [handleCardClick, hp, hf, hc, hfl, hm, h0]

theorem click_second (now : Int) (cardId : Nat) (g : MemoryGame) (i i1 : Nat) (c : Card)
    (hp : g.isPaused = false) (hf : findCard cardId g.cards = some i)
    (hc : g.cards[i]? = some c) (hfl : c.isFlipped = false) (hm : c.isMatched = false)
    (h1 : g.flippedCards = [i1]) :
    handleCardClick now cardId g = checkForMatch now (secondFlip g i1 i) := by
  simp [handleCardClick, hp, hf, hc, hfl, hm, h1, secondFlip]

theorem secondFlip_cards (g : MemoryGame) (i1 i : Nat) (c1 c : Card)
    (hc1 : g.cards[i1]? = some c1) (hc : g.cards[i]? = some c) (hne : i1 ≠ i) :
    (secondFlip g i1 i).cards[i1]? = some c1 ∧
      (secondFlip g i1 i).cards[i]? = some { c with isFlipped := true } := by
  simp [secondFlip, setFlipped_getElem?, hc1, hc, hne]

theorem check_mismatch (now : Int) (g : MemoryGame) (i1 i2 : Nat) (c1 c2 : Card)
    (hfl : g.flippedCards = [i1, i2]) (hc1 : g.cards[i1]? = some c1)
    (hc2 : g.cards[i2]? = some c2) (hs : c1.symbol ≠ c2.symbol) :
    checkForMatch now g =
      { g with revertTimers := g.revertTimers ++ [(i1, i2)], flippedCards := [] } := by
  simp [checkForMatch, hfl, hc1, hc2, hs]

theorem check_match (now : Int) (g : MemoryGame) (i1 i2 : Nat) (c1 c2 : Card)
    (hfl : g.flippedCards = [i1, i2]) (hc1 : g.cards[i1]? = some c1)
    (hc2 : g.cards[i2]? = some c2) (hs : c1.symbol = c2.symbol) :
    checkForMatch now g =
      { (if 2 * (g.matchedPairs + 1) = g.cards.length then
            gameComplete now
              { g with
                cards := setMatched (setMatched g.cards i1) i2
                matchedPairs := g.matchedPairs + 1
                score := g.score + 100 }
          else
            { g with
              cards := setMatched (setMatched g.cards i1) i2
              matchedPairs := g.matchedPairs + 1
              score := g.score + 100 }) with flippedCards := [] } := by
  simp [checkForMatch, hfl, hc1, hc2, hs, setMatched_length]

theorem click_match (now : Int) (cardId : Nat) (g : MemoryGame) (i i1 : Nat) (c c1 : Card)
    (hp : g.isPaused = false) (hf : findCard cardId g.cards = some i)
    (hc : g.cards[i]? = some c) (hfl : c.isFlipped = false) (hm : c.isMatched = false)
    (h1 : g.flippedCards = [i1]) (hc1 : g.cards[i1]? = some c1) (hne : i1 ≠ i)
    (hs : c1.symbol = c.symbol) :
    (handleCardClick now cardId g).cards =
        setMatched (setMatched (setFlipped g.cards i true) i1) i ∧
      (handleCardClick now cardId g).flippedCards = [] ∧
      (handleCardClick now cardId g).moves = g.moves + 1 ∧
      (handleCardClick now cardId g).matchedPairs = g.matchedPairs + 1 ∧
      (handleCardClick now cardId g).score = g.score + 100 ∧
      (handleCardClick now cardId g).revertTimers = g.revertTimers ∧
      (handleCardClick now cardId g).isPaused = g.isPaused ∧
      (handleCardClick now cardId g).startTime = g.startTime ∧
      (handleCardClick now cardId g).completions =
        g.completions + (if 2 * (g.matchedPairs + 1) = g.cards.length then 1 else 0) := by
  obtain ⟨h1', h2'⟩ := secondFlip_cards g i1 i c1 c hc1 hc hne
  rw [click_second now cardId g i i1 c hp hf hc hfl hm h1,
    check_match now (secondFlip g i1 i) i1 i c1 { c with isFlipped := true } rfl h1' h2' hs]
  have hlen : (secondFlip g i1 i).cards.length = g.cards.length := by
    simp [secondFlip, setFlipped_length]
  have hmp : (secondFlip g i1 i).matchedPairs = g.matchedPairs := rfl
  rw [hlen, hmp]
  split <;> simp [gameComplete, saveHighScore, secondFlip]

theorem click_mismatch (now : Int) (cardId : Nat) (g : MemoryGame) (i i1 : Nat) (c c1 : Card)
    (hp : g.isPaused = false) (hf : findCard cardId g.cards = some i)
    (hc : g.cards[i]? = some c) (hfl : c.isFlipped = false) (hm : c.isMatched = false)
    (h1 : g.flippedCards = [i1]) (hc1 : g.cards[i1]? = some c1) (hne : i1 ≠ i)
    (hs : c1.symbol ≠ c.symbol) :
    handleCardClick now cardId g =
      { g with
        cards := setFlipped g.cards i true
        flippedCards := []
        moves := g.moves + 1
        revertTimers := g.revertTimers ++ [(i1, i)] } := by
  obtain ⟨h1', h2'⟩ := secondFlip_cards g i1 i c1 c hc1 hc hne
  rw [click_second now cardId g i i1 c hp hf hc hfl hm h1,
    check_mismatch now (secondFlip g i1 i) i1 i c1 { c with isFlipped := true } rfl h1' h2' hs]
  rfl

theorem ids_of_map_eq (l l2 : List Card)
    (h : l2.map (fun c => (c.id, c.symbol)) = l.map (fun c => (c.id, c.symbol)))
    (hids : ∀ (k : Nat) (c : Card), l[k]? = some c → c.id = k) :
    ∀ (k : Nat) (c : Card), l2[k]? = some c → c.id = k := by
  intro k c hc
  have h1 : (l2.map (fun c => (c.id, c.symbol)))[k]? = some (c.id, c.symbol) := by
    rw [List.getElem?_map, hc]
    rfl
  rw [h, List.getElem?_map] at h1
  cases hl : l[k]? with
  | none => simp [hl] at h1
  | some d =>
    simp [hl] at h1
    rw [← h1.1]
    exact hids k d hl

theorem checkForMatch_ids (now : Int) (g : MemoryGame) :
    (checkForMatch now g).cards.map (fun c => (c.id, c.symbol)) =
      g.cards.map (fun c => (c.id, c.symbol)) := by
  unfold checkForMatch
  split
  · split
    · split
      · simp only
        split <;> simp [gameComplete, saveHighScore, setMatched_ids]
      · rfl
    · rfl
  · rfl

theorem handleCardClick_ids (now : Int) (cardId : Nat) (g : MemoryGame) :
    (handleCardClick now cardId g).cards.map (fun c => (c.id, c.symbol)) =
      g.cards.map (fun c => (c.id, c.symbol)) := by
  unfold handleCardClick
  split
  · rfl
  · split
    · rfl
    · split
      · rfl
      · split
        · rfl
        · split
          · rfl
          · simp only
            split
            · rw [checkForMatch_ids]
              simp [setFlipped_ids]
            · simp [setFlipped_ids]

theorem step_ids (g : MemoryGame) (e : Event) :
    (step g e).cards.map (fun c => (c.id, c.symbol)) =
      g.cards.map (fun c => (c.id, c.symbol)) := by
  cases e with
  | click now cardId => exact handleCardClick_ids now cardId g
  | pause =>
    simp only [step, togglePause]
    split <;> rfl
  | revert =>
    simp only [step, revertStep]
    split
    · rfl
    · simp [setFlipped_ids]
  | tick now =>
    simp only [step, timerTick]
    split <;> rfl

theorem checkForMatch_startTime (now : Int) (g : MemoryGame) :
    (checkForMatch now g).startTime = g.startTime := by
  unfold checkForMatch
  split
  · split
    · split
      · simp only
        split <;> simp [gameComplete, saveHighScore]
      · rfl
    · rfl
  · rfl

theorem handleCardClick_startTime (now : Int) (cardId : Nat) (g : MemoryGame) :
    (handleCardClick now cardId g).startTime = g.startTime := by
  unfold handleCardClick
  split
  · rfl
  · split
    · rfl
    · split
      · rfl
      · split
        · rfl
        · split
          · rfl
          · simp only
            split
            · rw [checkForMatch_startTime]
            · rfl

/-- No event moves the start time. -/
theorem step_startTime (g : MemoryGame) (e : Event) : (step g e).startTime = g.startTime := by
  cases e with
  | click now cardId => exact handleCardClick_startTime now cardId g
  | pause =>
    simp only [step, togglePause]
    split <;> rfl
  | revert =>
    simp only [step, revertStep]
    split <;> rfl
  | tick now =>
    simp only [step, timerTick]
    split <;> rfl

theorem run_startTime (es : List Event) (g : MemoryGame) : (run g es).startTime = g.startTime := by
  induction es generalizing g with
  | nil => rfl
  | cons e rest ih => exact (ih (step g e)).trans (step_startTime g e)

theorem checkForMatch_timer (now : Int) (g : MemoryGame) :
    (checkForMatch now g).isPaused = g.isPaused ∧
      (((checkForMatch now g).completions = g.completions ∧
          (checkForMatch now g).gameTimer = g.gameTimer) ∨
        (checkForMatch now g).completions = g.completions + 1) := by
  unfold checkForMatch
  split
  · split
    · split
      · simp only
        split <;> simp [gameComplete, saveHighScore]
      · exact ⟨rfl, Or.inl ⟨rfl, rfl⟩⟩
    · exact ⟨rfl, Or.inl ⟨rfl, rfl⟩⟩
  · exact ⟨rfl, Or.inl ⟨rfl, rfl⟩⟩

/-- A click never touches the pause flag, and it leaves the interval alone unless
it calls `gameComplete`. -/
theorem handleCardClick_timer (now : Int) (cardId : Nat) (g : MemoryGame) :
    (handleCardClick now cardId g).isPaused = g.isPaused ∧
      (((handleCardClick now cardId g).completions = g.completions ∧
          (handleCardClick now cardId g).gameTimer = g.gameTimer) ∨
        (handleCardClick now cardId g).completions = g.completions + 1) := by
  unfold handleCardClick
  split
  · exact ⟨rfl, Or.inl ⟨rfl, rfl⟩⟩
  · split
    · exact ⟨rfl, Or.inl ⟨rfl, rfl⟩⟩
    · split
      · exact ⟨rfl, Or.inl ⟨rfl, rfl⟩⟩
      · split
        · exact ⟨rfl, Or.inl ⟨rfl, rfl⟩⟩
        · split
          · exact ⟨rfl, Or.inl ⟨rfl, rfl⟩⟩
          · simp only
            split
            · exact checkForMatch_timer now _
            · exact ⟨rfl, Or.inl ⟨rfl, rfl⟩⟩

/-- Until `gameComplete` is called the interval is armed exactly while the game
is not paused. -/
theorem step_timer (g : MemoryGame) (e : Event)
    (h : g.completions ≠ 0 ∨ g.gameTimer = !g.isPaused) :
    (step g e).completions ≠ 0 ∨ (step g e).gameTimer = !(step g e).isPaused := by
  cases e with
  | click now cardId =>
    obtain ⟨hp, hc | hc⟩ := handleCardClick_timer now cardId g
    · simp only [step]
      rw [hp, hc.1, hc.2]
      exact h
    · left
      simp only [step]
      omega
  | pause =>
    right
    simp only [step, togglePause]
    split
    · rename_i hp
      simp only at hp ⊢
      rw [hp]
      rfl
    · rename_i hp
      simp only at hp ⊢
      simp only [Bool.not_eq_true] at hp
      rw [hp]
      rfl
  | revert =>
    simp only [step, revertStep]
    split <;> exact h
  | tick now =>
    simp only [step, timerTick]
    split <;> exact h

theorem run_timer (es : List Event) (g : MemoryGame)
    (h : g.completions ≠ 0 ∨ g.gameTimer = !g.isPaused) :
    (run g es).completions ≠ 0 ∨ (run g es).gameTimer = !(run g es).isPaused := by
  induction es generalizing g with
  | nil => exact h
  | cons e rest ih => exact ih (step g e) (step_timer g e h)

theorem step_length (g : MemoryGame) (e : Event) : (step g e).cards.length = g.cards.length := by
  have h := congrArg List.length (step_ids g e)
  simpa using h

/-! ## The invariant holds along every run -/

theorem newGame_cards (now : Int) (rand : (i : Nat) → Fin (i + 1)) (g0 : MemoryGame) :
    (newGame now rand g0).cards = createCards rand := by
  simp only [newGame]

theorem inv_newGame (now : Int) (rand : (i : Nat) → Fin (i + 1)) (g0 : MemoryGame) :
    Inv (newGame now rand g0) := by
  have hcards := newGame_cards now rand g0
  have hfl : (newGame now rand g0).flippedCards = [] := by simp only [newGame]
  have hrt : revertTargets (newGame now rand g0) = [] := by simp [newGame, revertTargets]
  have hmp : (newGame now rand g0).matchedPairs = 0 := by simp only [newGame]
  have hmv : (newGame now rand g0).moves = 0 := by simp only [newGame]
  have hsc : (newGame now rand g0).score = 0 := by simp only [newGame]
  have hco : (newGame now rand g0).completions = 0 := by simp only [newGame]
  have hunm : ∀ c ∈ createCards rand, c.isMatched = false := by
    intro c hc
    obtain ⟨k, hk⟩ := List.mem_iff_getElem?.mp hc
    exact (createCards_getElem? rand k c hk).2.2
  refine ⟨?_, ?_, ?_, ?_, ?_, ?_, ?_, ?_, ?_, ?_⟩
  · intro k c hc
    rw [hcards] at hc
    exact (createCards_getElem? rand k c hc).1
  · rw [hcards]
    exact createCards_length rand
  · rw [hfl]
    exact Nat.zero_le _
  · intro k hk
    rw [hfl, hrt] at hk
    cases hk
  · rw [hfl, hrt]
    exact List.nodup_nil
  · intro k c hc hm
    rw [hcards] at hc
    rw [(createCards_getElem? rand k c hc).2.2] at hm
    cases hm
  · rw [hcards, hmp]
    rw [List.countP_eq_zero]
    intro c hc
    simp [hunm c hc]
  · rw [hsc, hmp]
  · rw [hmp]
    exact Nat.zero_le _
  · rw [hcards, createCards_length, hmp, hco]
    simp

theorem inv_togglePause (g : MemoryGame) (h : Inv g) : Inv (togglePause g) := by
  unfold togglePause
  simp only
  split
  · exact ⟨h.ids, h.deck, h.pendingLe, h.faceUp, h.nodup, h.matchedFlipped, h.matchedCount,
      h.scoreEq, h.pairsLeMoves, h.completionsEq⟩
  · exact ⟨h.ids, h.deck, h.pendingLe, h.faceUp, h.nodup, h.matchedFlipped, h.matchedCount,
      h.scoreEq, h.pairsLeMoves, h.completionsEq⟩

theorem inv_timerTick (now : Int) (g : MemoryGame) (h : Inv g) : Inv (timerTick now g) := by
  unfold timerTick
  split
  · exact ⟨h.ids, h.deck, h.pendingLe, h.faceUp, h.nodup, h.matchedFlipped, h.matchedCount,
      h.scoreEq, h.pairsLeMoves, h.completionsEq⟩
  · exact h

theorem faceUp_of_getElem?_eq (g g2 : MemoryGame) (k : Nat)
    (h : g2.cards[k]? = g.cards[k]?) (hk : FaceUpUnmatched g k) : FaceUpUnmatched g2 k := by
  obtain ⟨c, hc, hfl, hm⟩ := hk
  exact ⟨c, h.trans hc, hfl, hm⟩

theorem inv_revertStep (g : MemoryGame) (h : Inv g) : Inv (revertStep g) := by
  have hids := step_ids g .revert
  have hlen := step_length g .revert
  simp only [step] at hids hlen
  cases hr : g.revertTimers with
  | nil =>
    have : revertStep g = g := by simp [revertStep, hr]
    rw [this]
    exact h
  | cons p rest =>
    obtain ⟨i1, i2⟩ := p
    have hstep : revertStep g =
        { g with cards := setFlipped (setFlipped g.cards i1 false) i2 false,
                 revertTimers := rest } := by
      simp [revertStep, hr]
    have htargets : revertTargets g = i1 :: i2 :: rest.flatMap (fun p => [p.1, p.2]) := by
      simp [revertTargets, hr]
    have hnd := h.nodup
    have hfu := h.faceUp
    rw [htargets] at hnd hfu
    have hsub : (g.flippedCards ++ rest.flatMap (fun p => [p.1, p.2])).Sublist
        (g.flippedCards ++ i1 :: i2 :: rest.flatMap (fun p => [p.1, p.2])) :=
      List.Sublist.append_left ((List.sublist_cons_self _ _).trans (List.sublist_cons_self _ _)) _
    have hne : ∀ k ∈ g.flippedCards ++ rest.flatMap (fun p => [p.1, p.2]), k ≠ i1 ∧ k ≠ i2 := by
      intro k hk
      simp only [List.nodup_append, List.nodup_cons, List.mem_cons, List.mem_append,
        List.Disjoint] at hnd hk
      constructor
      · rintro rfl
        rcases hk with hk | hk
        · exact hnd.2.2 hk (Or.inl rfl)
        · exact hnd.2.1.1 (Or.inr hk)
      · rintro rfl
        rcases hk with hk | hk
        · exact hnd.2.2 hk (Or.inr (Or.inl rfl))
        · exact hnd.2.1.2.1 hk
    have hu1 : FaceUpUnmatched g i1 := hfu i1 (by simp)
    have hu2 : FaceUpUnmatched g i2 := hfu i2 (by simp)
    rw [hstep] at hids hlen ⊢
    refine ⟨ids_of_map_eq _ _ hids h.ids, hlen.trans h.deck, h.pendingLe, ?_, ?_, ?_, ?_,
      h.scoreEq, h.pairsLeMoves, ?_⟩
    · intro k hk
      have hk2 : k ∈ g.flippedCards ++ rest.flatMap (fun p => [p.1, p.2]) := hk
      obtain ⟨hk1, hk3⟩ := hne k hk2
      apply faceUp_of_getElem?_eq g
      · simp [setFlipped_getElem?, hk1, hk3]
      · exact hfu k (hsub.subset hk2)
    · exact hnd.sublist hsub
    · intro k c hc hm
      simp only [setFlipped_getElem?] at hc
      obtain ⟨d1, hd1, hf1, hm1⟩ := hu1
      obtain ⟨d2, hd2, hf2, hm2⟩ := hu2
      by_cases hk2 : k = i2
      · subst hk2
        by_cases hk1 : k = i1
        · subst hk1
          simp [hd1] at hc
          subst hc
          simp [hm1] at hm
        · simp [hk1, hd2] at hc
          subst hc
          simp [hm2] at hm
      · by_cases hk1 : k = i1
        · subst hk1
          simp [hk2, hd1] at hc
          subst hc
          simp [hm1] at hm
        · simp [hk1, hk2] at hc
          exact h.matchedFlipped k c hc hm
    · show (setFlipped (setFlipped g.cards i1 false) i2 false).countP (·.isMatched) = _
      rw [setFlipped_countP_isMatched, setFlipped_countP_isMatched]
      exact h.matchedCount
    · show g.completions = if 2 * g.matchedPairs =
        (setFlipped (setFlipped g.cards i1 false) i2 false).length then 1 else 0
      rw [setFlipped_length, setFlipped_length]
      exact h.completionsEq

theorem countP_isMatched_lt (cards : List Card) (i : Nat) (c : Card)
    (hc : cards[i]? = some c) (hm : c.isMatched = false) :
    cards.countP (·.isMatched) < cards.length := by
  apply Nat.lt_of_le_of_ne (List.countP_le_length _)
  intro heq
  rw [List.countP_eq_length] at heq
  have := heq c (List.getElem?_mem hc)
  simp [hm] at this

theorem inv_handleCardClick (now : Int) (cardId : Nat) (g : MemoryGame) (h : Inv g) :
    Inv (handleCardClick now cardId g) := by
  have hids := handleCardClick_ids now cardId g
  have hlen : (handleCardClick now cardId g).cards.length = g.cards.length := by
    simpa using congrArg List.length hids
  cases hp : g.isPaused with
  | true => rw [click_paused now cardId g hp]; exact h
  | false =>
  cases hf : findCard cardId g.cards with
  | none => rw [click_unknown now cardId g hf]; exact h
  | some i =>
  obtain ⟨c, hc, -⟩ := findCard_some cardId g.cards i hf
  cases hfl : c.isFlipped with
  | true => rw [click_shown now cardId g i c hf hc (Or.inl hfl)]; exact h
  | false =>
  cases hm : c.isMatched with
  | true => rw [click_shown now cardId g i c hf hc (Or.inr hm)]; exact h
  | false =>
  -- the clicked card is hidden, so no pending or reverting card is at position `i`
  have hnot : ∀ k ∈ g.flippedCards ++ revertTargets g, k ≠ i := by
    intro k hk hki
    subst hki
    obtain ⟨d, hd, hdf, -⟩ := h.faceUp k hk
    rw [hc] at hd
    cases hd
    rw [hfl] at hdf
    cases hdf
  have hcount := h.matchedCount
  have hpl := h.pendingLe
  cases hfc : g.flippedCards with
  | nil =>
    have hstep := click_first now cardId g i c hp hf hc hfl hm hfc
    rw [hstep] at hids hlen ⊢
    rw [hfc] at hnot
    refine ⟨ids_of_map_eq _ _ hids h.ids, hlen.trans h.deck, by simp, ?_, ?_, ?_, ?_,
      h.scoreEq, h.pairsLeMoves, ?_⟩
    · intro k hk
      have hk2 : k = i ∨ k ∈ revertTargets g := by simpa [revertTargets] using hk
      rcases hk2 with hk2 | hk2
      · subst hk2
        exact ⟨{ c with isFlipped := true }, by simp [setFlipped_getElem?, hc], rfl, hm⟩
      · apply faceUp_of_getElem?_eq g
        · simp [setFlipped_getElem?, hnot k (by simpa using hk2)]
        · exact h.faceUp k (by simp [hk2])
    · have hnd := h.nodup
      rw [hfc] at hnd
      show (i :: revertTargets g).Nodup
      rw [List.nodup_cons]
      exact ⟨fun hi => hnot i (by simpa using hi) rfl, by simpa using hnd⟩
    · intro k d hd hdm
      simp only [setFlipped_getElem?] at hd
      by_cases hk : k = i
      · subst hk
        simp [hc] at hd
        subst hd
        rfl
      · simp [hk] at hd
        exact h.matchedFlipped k d hd hdm
    · show (setFlipped g.cards i true).countP (·.isMatched) = _
      rw [setFlipped_countP_isMatched]
      exact hcount
    · show g.completions = if 2 * g.matchedPairs = (setFlipped g.cards i true).length then 1 else 0
      rw [setFlipped_length]
      exact h.completionsEq
  | cons i1 tl =>
    have htl : tl = [] := by
      rw [hfc] at hpl
      simp at hpl
      exact hpl
    subst htl
    obtain ⟨c1, hc1, hc1f, hc1m⟩ := h.faceUp i1 (by simp [hfc])
    have hne : i1 ≠ i := hnot i1 (by simp [hfc])
    have hrev : ∀ k ∈ revertTargets g, k ≠ i ∧ k ≠ i1 := by
      intro k hk
      refine ⟨hnot k (by simp [hk]), ?_⟩
      rintro rfl
      have hnd := h.nodup
      rw [hfc] at hnd
      simp only [List.singleton_append, List.nodup_cons] at hnd
      exact hnd.1 hk
    by_cases hs : c1.symbol = c.symbol
    · obtain ⟨e1, e2, e3, e4, e5, e6, -, -, e9⟩ :=
        click_match now cardId g i i1 c c1 hp hf hc hfl hm hfc hc1 hne hs
      have hrt : revertTargets (handleCardClick now cardId g) = revertTargets g := by
        simp only [revertTargets, e6]
      refine ⟨ids_of_map_eq _ _ hids h.ids, hlen.trans h.deck, by simp [e2], ?_, ?_, ?_, ?_,
        ?_, ?_, ?_⟩
      · intro k hk
        rw [e2, hrt] at hk
        have hk2 : k ∈ revertTargets g := by simpa using hk
        obtain ⟨hki, hki1⟩ := hrev k hk2
        apply faceUp_of_getElem?_eq g
        · rw [e1]
          simp [setMatched_getElem?, setFlipped_getElem?, hki, hki1]
        · exact h.faceUp k (by simp [hk2])
      · rw [e2, hrt]
        have hnd := h.nodup
        rw [hfc] at hnd
        simp only [List.singleton_append, List.nodup_cons] at hnd
        simpa using hnd.2
      · intro k d hd hdm
        rw [e1] at hd
        simp only [setMatched_getElem?, setFlipped_getElem?] at hd
        by_cases hk : k = i
        · subst hk
          simp [hc, Ne.symm hne] at hd
          subst hd
          rfl
        · by_cases hk1 : k = i1
          · subst hk1
            simp [hk, hc1] at hd
            subst hd
            exact hc1f
          · simp [hk, hk1] at hd
            exact h.matchedFlipped k d hd (by simpa using hdm)
      · rw [e1, e4]
        have a1 : (setFlipped g.cards i true)[i1]? = some c1 := by
          simp [setFlipped_getElem?, hne, hc1]
        have a2 : (setMatched (setFlipped g.cards i true) i1)[i]? =
            some { c with isFlipped := true } := by
          simp [setMatched_getElem?, setFlipped_getElem?, hc, Ne.symm hne]
        rw [setMatched_countP_isMatched _ i _ a2 hm, setMatched_countP_isMatched _ i1 _ a1 hc1m,
          setFlipped_countP_isMatched, hcount]
        omega
      · rw [e5, e4, h.scoreEq]
        omega
      · rw [e3, e4]
        have := h.pairsLeMoves
        omega
      · rw [e9, e4, hlen, h.completionsEq]
        have hlt := countP_isMatched_lt g.cards i c hc hm
        rw [hcount] at hlt
        have hne2 : ¬ 2 * g.matchedPairs = g.cards.length := by omega
        simp [hne2]
    · have hstep := click_mismatch now cardId g i i1 c c1 hp hf hc hfl hm hfc hc1 hne hs
      rw [hstep] at hids hlen ⊢
      have hrt : revertTargets
          { g with cards := setFlipped g.cards i true, flippedCards := [], moves := g.moves + 1,
                   revertTimers := g.revertTimers ++ [(i1, i)] } =
          revertTargets g ++ [i1, i] := by
        simp [revertTargets]
      refine ⟨ids_of_map_eq _ _ hids h.ids, hlen.trans h.deck, by simp, ?_, ?_, ?_, ?_,
        h.scoreEq, ?_, ?_⟩
      · intro k hk
        rw [hrt] at hk
        have hk2 : k ∈ revertTargets g ∨ k = i1 ∨ k = i := by simpa using hk
        rcases hk2 with hk2 | hk2 | hk2
        · apply faceUp_of_getElem?_eq g
          · simp [setFlipped_getElem?, (hrev k hk2).1]
          · exact h.faceUp k (by simp [hk2])
        · subst hk2
          exact ⟨c1, by simp [setFlipped_getElem?, hne, hc1], hc1f, hc1m⟩
        · subst hk2
          exact ⟨{ c with isFlipped := true }, by simp [setFlipped_getElem?, hc], rfl, hm⟩
      · rw [hrt]
        have hnd := h.nodup
        rw [hfc] at hnd
        simp only [List.singleton_append, List.nodup_cons] at hnd
        show ([] ++ (revertTargets g ++ [i1, i])).Nodup
        rw [List.nil_append, List.nodup_append]
        refine ⟨hnd.2, by simp [hne], ?_⟩
        intro k hk hk2
        have hk3 : k = i1 ∨ k = i := by simpa using hk2
        rcases hk3 with hk3 | hk3
        · exact (hrev k hk).2 hk3
        · exact (hrev k hk).1 hk3
      · intro k d hd hdm
        simp only [setFlipped_getElem?] at hd
        by_cases hk : k = i
        · subst hk
          simp [hc] at hd
          subst hd
          rfl
        · simp [hk] at hd
          exact h.matchedFlipped k d hd hdm
      · show (setFlipped g.cards i true).countP (·.isMatched) = _
        rw [setFlipped_countP_isMatched]
        exact hcount
      · show g.matchedPairs ≤ g.moves + 1
        have := h.pairsLeMoves
        omega
      · show g.completions =
          if 2 * g.matchedPairs = (setFlipped g.cards i true).length then 1 else 0
        rw [setFlipped_length]
        exact h.completionsEq

theorem inv_step (g : MemoryGame) (e : Event) (h : Inv g) : Inv (step g e) := by
  cases e with
  | click now cardId => exact inv_handleCardClick now cardId g h
  | pause => exact inv_togglePause g h
  | revert => exact inv_revertStep g h
  | tick now => exact inv_timerTick now g h

theorem inv_of_reachable (g : MemoryGame) (h : Reachable g) : Inv g := by
  induction h with
  | start now rand g0 => exact inv_newGame now rand g0
  | next g e _ ih => exact inv_step g e ih

theorem inv_run (g : MemoryGame) (es : List Event) (h : Inv g) : Inv (run g es) := by
  induction es generalizing g with
  | nil => exact h
  | cons e rest ih => exact ih (step g e) (inv_step g e h)

theorem reachable_run (g : MemoryGame) (es : List Event) (h : Reachable g) :
    Reachable (run g es) := by
  induction es generalizing g with
  | nil => exact h
  | cons e rest ih => exact ih (step g e) (Reachable.next g e h)

/-! ## The high-score list -/

theorem sortInsert_eq_orderedInsert {α : Type} (cmp : α → α → Int) (a : α) (l : List α) :
    sortInsert cmp a l = List.orderedInsert (fun x y => cmp x y ≤ 0) a l := by
  induction l with
  | nil => rfl
  | cons b rest ih =>
    simp only [sortInsert, List.orderedInsert, ih]

theorem sort_eq_insertionSort {α : Type} (cmp : α → α → Int) (l : List α) :
    sort cmp l = List.insertionSort (fun x y => cmp x y ≤ 0) l := by
  induction l with
  | nil => rfl
  | cons a rest ih =>
    simp only [sort, List.insertionSort, ih, sortInsert_eq_orderedInsert]

theorem sort_perm {α : Type} (cmp : α → α → Int) (l : List α) : (sort cmp l).Perm l := by
  rw [sort_eq_insertionSort]
  exact List.perm_insertionSort _ l

theorem sort_compareScores_sorted (l : List HighScoreEntry) :
    (sort compareScores l).Sorted (fun a b => b.score ≤ a.score) := by
  rw [sort_eq_insertionSort]
  have htotal : IsTotal HighScoreEntry (fun x y => compareScores x y ≤ 0) :=
    ⟨fun a b => by
      simp only [compareScores]
      omega⟩
  have htrans : IsTrans HighScoreEntry (fun x y => compareScores x y ≤ 0) :=
    ⟨fun a b c hab hbc => by
      simp only [compareScores] at hab hbc ⊢
      omega⟩
  have hs := List.sorted_insertionSort (fun x y => compareScores x y ≤ 0) l
  refine List.Pairwise.imp ?_ hs
  intro a b hab
  simp only [compareScores] at hab
  omega

theorem sortInsert_filter (s : Int) (a : HighScoreEntry) (l : List HighScoreEntry) :
    (sortInsert compareScores a l).filter (fun e => e.score = s) =
      (a :: l).filter (fun e => e.score = s) := by
  induction l with
  | nil => rfl
  | cons b rest ih =>
    unfold sortInsert
    split
    · rfl
    · rename_i hgt
      simp only [compareScores] at hgt
      have hne : a.score ≠ b.score := by omega
      rw [List.filter_cons, ih]
      simp only [List.filter_cons]
      by_cases hb : b.score = s
      · have ha : ¬ a.score = s := fun ha => hne (ha.trans hb.symm)
        simp [hb, ha]
      · simp [hb]

/-- Stability: the entries of any one score keep their relative order. -/
theorem sort_compareScores_stable (s : Int) (l : List HighScoreEntry) :
    (sort compareScores l).filter (fun e => e.score = s) = l.filter (fun e => e.score = s) := by
  induction l with
  | nil => rfl
  | cons a rest ih =>
    simp only [sort]
    rw [sortInsert_filter, List.filter_cons, List.filter_cons, ih]

theorem sort_eq_self_of_pairwise {α : Type} (cmp : α → α → Int) (l : List α)
    (h : l.Pairwise (fun a b => cmp a b ≤ 0)) : sort cmp l = l := by
  induction l with
  | nil => rfl
  | cons a rest ih =>
    rw [List.pairwise_cons] at h
    simp only [sort]
    rw [ih h.2]
    cases rest with
    | nil => rfl
    | cons b tl =>
      have := h.1 b (by simp)
      simp [sortInsert, this]

theorem pushSortSplice_full (stored : List HighScoreEntry) (newScore : HighScoreEntry)
    (hlen : stored.length = 10) (hall : ∀ e ∈ stored, e.score = newScore.score) :
    pushSortSplice stored newScore = stored := by
  unfold pushSortSplice
  rw [sort_eq_self_of_pairwise]
  · rw [← hlen]
    simp
  · rw [List.pairwise_append]
    refine ⟨?_, by simp, ?_⟩
    · rw [List.pairwise_iff_forall_sublist]
      intro a b hab
      have ha := hall a (hab.subset (by simp))
      have hb := hall b (hab.subset (by simp))
      simp only [compareScores]
      omega
    · intro a ha b hb
      have hb2 : b = newScore := by simpa using hb
      subst hb2
      have := hall a ha
      simp only [compareScores]
      omega

/-- A list sorted by non-increasing score is determined by its entries of each
score taken in order: the stable descending sort of a list is unique. -/
theorem stable_sorted_unique (l l2 : List HighScoreEntry)
    (hl : l.Sorted (fun a b => b.score ≤ a.score))
    (hl2 : l2.Sorted (fun a b => b.score ≤ a.score))
    (h : ∀ s : Int, l.filter (fun e => e.score = s) = l2.filter (fun e => e.score = s)) :
    l = l2 := by
  induction l generalizing l2 with
  | nil =>
    cases l2 with
    | nil => rfl
    | cons b t2 =>
      have := h b.score
      simp at this
  | cons a t ih =>
    cases l2 with
    | nil =>
      have := h a.score
      simp at this
    | cons b t2 =>
      rw [List.sorted_cons] at hl hl2
      have hle1 : a.score ≤ b.score := by
        have hmem : a ∈ (b :: t2).filter (fun e => e.score = a.score) := by
          rw [← h a.score]
          simp
        have hmem2 : a ∈ b :: t2 := (List.mem_filter.mp hmem).1
        rcases List.mem_cons.mp hmem2 with hab | hat
        · rw [hab]
        · exact hl2.1 a hat
      have hle2 : b.score ≤ a.score := by
        have hmem : b ∈ (a :: t).filter (fun e => e.score = b.score) := by
          rw [h b.score]
          simp
        have hmem2 : b ∈ a :: t := (List.mem_filter.mp hmem).1
        rcases List.mem_cons.mp hmem2 with hab | hat
        · rw [hab]
        · exact hl.1 b hat
      have hab : a.score = b.score := Int.le_antisymm hle1 hle2
      have h0 := h a.score
      simp only [List.filter_cons, hab, decide_True, if_true] at h0
      have hhead : a = b := (List.cons.inj h0).1
      subst hhead
      congr 1
      apply ih t2 hl.2 hl2.2
      intro s
      have hs := h s
      simp only [List.filter_cons] at hs
      split at hs
      · exact (List.cons.inj hs).2
      · exact hs

/-! ## Consequences of the invariant -/

/-- Either the click is ignored, or it lands on a hidden unmatched card while at
most one card is pending. -/
theorem click_cases (now : Int) (cardId : Nat) (g : MemoryGame) (h : Inv g) :
    handleCardClick now cardId g = g ∨
      ∃ i c, g.isPaused = false ∧ findCard cardId g.cards = some i ∧ g.cards[i]? = some c ∧
        c.isFlipped = false ∧ c.isMatched = false ∧
        (g.flippedCards = [] ∨
          ∃ i1 c1, g.flippedCards = [i1] ∧ g.cards[i1]? = some c1 ∧ c1.isFlipped = true ∧
            c1.isMatched = false ∧ i1 ≠ i) := by
  cases hp : g.isPaused with
  | true => exact Or.inl (click_paused now cardId g hp)
  | false =>
  cases hf : findCard cardId g.cards with
  | none => exact Or.inl (click_unknown now cardId g hf)
  | some i =>
  obtain ⟨c, hc, -⟩ := findCard_some cardId g.cards i hf
  cases hfl : c.isFlipped with
  | true => exact Or.inl (click_shown now cardId g i c hf hc (Or.inl hfl))
  | false =>
  cases hm : c.isMatched with
  | true => exact Or.inl (click_shown now cardId g i c hf hc (Or.inr hm))
  | false =>
  refine Or.inr ⟨i, c, rfl, rfl, hc, hfl, hm, ?_⟩
  have hpl := h.pendingLe
  cases hfc : g.flippedCards with
  | nil => exact Or.inl rfl
  | cons i1 tl =>
    have htl : tl = [] := by
      rw [hfc] at hpl
      simp at hpl
      exact hpl
    subst htl
    obtain ⟨c1, hc1, hc1f, hc1m⟩ := h.faceUp i1 (by simp [hfc])
    refine Or.inr ⟨i1, c1, rfl, hc1, hc1f, hc1m, ?_⟩
    rintro rfl
    rw [hc] at hc1
    cases hc1
    rw [hfl] at hc1f
    cases hc1f

/-- The storage after a matching second click: written only when the match is
the last one. -/
theorem click_match_storage (now : Int) (cardId : Nat) (g : MemoryGame) (i i1 : Nat)
    (c c1 : Card) (hp : g.isPaused = false) (hf : findCard cardId g.cards = some i)
    (hc : g.cards[i]? = some c) (hfl : c.isFlipped = false) (hm : c.isMatched = false)
    (h1 : g.flippedCards = [i1]) (hc1 : g.cards[i1]? = some c1) (hne : i1 ≠ i)
    (hs : c1.symbol = c.symbol) :
    (handleCardClick now cardId g).memoryHighScores =
      if 2 * (g.matchedPairs + 1) = g.cards.length then
        pushSortSplice g.memoryHighScores
          { score := (g.score : Int) + 100, moves := (g.moves : Int) + 1,
            time := elapsed now g, date := now }
      else g.memoryHighScores := by
  obtain ⟨h1', h2'⟩ := secondFlip_cards g i1 i c1 c hc1 hc hne
  rw [click_second now cardId g i i1 c hp hf hc hfl hm h1,
    check_match now (secondFlip g i1 i) i1 i c1 { c with isFlipped := true } rfl h1' h2' hs]
  have hlen : (secondFlip g i1 i).cards.length = g.cards.length := by
    simp [secondFlip, setFlipped_length]
  have hmp : (secondFlip g i1 i).matchedPairs = g.matchedPairs := rfl
  rw [hlen, hmp]
  split <;> simp [gameComplete, saveHighScore, newScore, secondFlip, elapsed]

/-- A click leaves the cards awaiting a revert alone and only ever appends to
the revert queue. -/
theorem click_frame (now : Int) (cardId : Nat) (g : MemoryGame) (h : Inv g) :
    (∀ k ∈ revertTargets g, (handleCardClick now cardId g).cards[k]? = g.cards[k]?) ∧
      ∃ added, (handleCardClick now cardId g).revertTimers = g.revertTimers ++ added := by
  rcases click_cases now cardId g h with hno | ⟨i, c, hp, hf, hc, hfl, hm, hfc | hsnd⟩
  · rw [hno]
    exact ⟨fun _ _ => rfl, [], by simp⟩
  · rw [click_first now cardId g i c hp hf hc hfl hm hfc]
    refine ⟨?_, [], by simp⟩
    intro k hk
    have hki : k ≠ i := by
      rintro rfl
      obtain ⟨d, hd, hdf, -⟩ := h.faceUp k (by simp [hk])
      rw [hc] at hd
      cases hd
      rw [hfl] at hdf
      cases hdf
    simp [setFlipped_getElem?, hki]
  · obtain ⟨i1, c1, hfc, hc1, hc1f, hc1m, hne⟩ := hsnd
    have hrev : ∀ k ∈ revertTargets g, k ≠ i ∧ k ≠ i1 := by
      intro k hk
      constructor
      · rintro rfl
        obtain ⟨d, hd, hdf, -⟩ := h.faceUp k (by simp [hk])
        rw [hc] at hd
        cases hd
        rw [hfl] at hdf
        cases hdf
      · rintro rfl
        have hnd := h.nodup
        rw [hfc] at hnd
        simp only [List.singleton_append, List.nodup_cons] at hnd
        exact hnd.1 hk
    by_cases hs : c1.symbol = c.symbol
    · obtain ⟨e1, -, -, -, -, e6, -⟩ :=
        click_match now cardId g i i1 c c1 hp hf hc hfl hm hfc hc1 hne hs
      refine ⟨?_, [], by simp [e6]⟩
      intro k hk
      rw [e1]
      simp [setMatched_getElem?, setFlipped_getElem?, (hrev k hk).1, (hrev k hk).2]
    · rw [click_mismatch now cardId g i i1 c c1 hp hf hc hfl hm hfc hc1 hne hs]
      refine ⟨?_, [(i1, i)], rfl⟩
      intro k hk
      simp [setFlipped_getElem?, (hrev k hk).1]

theorem matchedPairs_le (g : MemoryGame) (h : Inv g) : g.matchedPairs ≤ 8 := by
  have h1 := h.matchedCount
  have h2 := h.deck
  have h3 : g.cards.countP (·.isMatched) ≤ g.cards.length := List.countP_le_length _
  omega

/-- Once all pairs are matched every click is ignored. -/
theorem click_after_completion (now : Int) (cardId : Nat) (g : MemoryGame) (h : Inv g)
    (h8 : g.matchedPairs = 8) : handleCardClick now cardId g = g := by
  rcases click_cases now cardId g h with hno | ⟨i, c, -, -, hc, -, hm, -⟩
  · exact hno
  · have hlt := countP_isMatched_lt g.cards i c hc hm
    have h1 := h.matchedCount
    have h2 := h.deck
    omega

theorem step_matchedPairs_of_not_click (g : MemoryGame) (e : Event)
    (he : ∀ now cardId, e ≠ .click now cardId) :
    (step g e).matchedPairs = g.matchedPairs := by
  cases e with
  | click now cardId => exact absurd rfl (he now cardId)
  | pause => simp only [step, togglePause]; split <;> rfl
  | revert => simp only [step, revertStep]; split <;> rfl
  | tick now => simp only [step, timerTick]; split <;> rfl

theorem setFlipped_keeps_isMatched (cards : List Card) (i : Nat) (b : Bool) (k : Nat) (c : Card)
    (hc : cards[k]? = some c) (hm : c.isMatched = true) :
    ∃ d, (setFlipped cards i b)[k]? = some d ∧ d.isMatched = true := by
  rw [setFlipped_getElem?]
  split
  · exact ⟨{ c with isFlipped := b }, by simp [hc], hm⟩
  · exact ⟨c, hc, hm⟩

/-- A matched card stays matched, and face-up, under every event. -/
theorem step_keeps_isMatched (g : MemoryGame) (h : Inv g) (e : Event) (k : Nat) (c : Card)
    (hc : g.cards[k]? = some c) (hm : c.isMatched = true) :
    ∃ d, (step g e).cards[k]? = some d ∧ d.isMatched = true ∧ d.isFlipped = true := by
  have hinv := inv_step g e h
  suffices hs : ∃ d, (step g e).cards[k]? = some d ∧ d.isMatched = true by
    obtain ⟨d, hd, hdm⟩ := hs
    exact ⟨d, hd, hdm, hinv.matchedFlipped k d hd hdm⟩
  cases e with
  | click now cardId =>
    simp only [step]
    rcases click_cases now cardId g h with hno | ⟨i, c2, hp, hf, hc2, hfl, hm2, hfc | hsnd⟩
    · rw [hno]
      exact ⟨c, hc, hm⟩
    · rw [click_first now cardId g i c2 hp hf hc2 hfl hm2 hfc]
      have hki : k ≠ i := by
        rintro rfl
        rw [hc] at hc2
        cases hc2
        rw [hm] at hm2
        cases hm2
      exact ⟨c, by simp [setFlipped_getElem?, hki, hc], hm⟩
    · obtain ⟨i1, c1, hfc, hc1, hc1f, hc1m, hne⟩ := hsnd
      have hki : k ≠ i := by
        rintro rfl
        rw [hc] at hc2
        cases hc2
        rw [hm] at hm2
        cases hm2
      have hki1 : k ≠ i1 := by
        rintro rfl
        rw [hc] at hc1
        cases hc1
        rw [hm] at hc1m
        cases hc1m
      by_cases hs : c1.symbol = c2.symbol
      · obtain ⟨e1, -⟩ := click_match now cardId g i i1 c2 c1 hp hf hc2 hfl hm2 hfc hc1 hne hs
        rw [e1]
        exact ⟨c, by simp [setMatched_getElem?, setFlipped_getElem?, hki, hki1, hc], hm⟩
      · rw [click_mismatch now cardId g i i1 c2 c1 hp hf hc2 hfl hm2 hfc hc1 hne hs]
        exact ⟨c, by simp [setFlipped_getElem?, hki, hc], hm⟩
  | pause =>
    simp only [step, togglePause]
    split <;> exact ⟨c, hc, hm⟩
  | revert =>
    simp only [step, revertStep]
    split
    · exact ⟨c, hc, hm⟩
    · rename_i i1 i2 rest _
      obtain ⟨d1, hd1, hdm1⟩ := setFlipped_keeps_isMatched g.cards i1 false k c hc hm
      exact setFlipped_keeps_isMatched _ i2 false k d1 hd1 hdm1
  | tick now =>
    simp only [step, timerTick]
    split <;> exact ⟨c, hc, hm⟩

theorem run_keeps_isMatched (es : List Event) (g : MemoryGame) (h : Inv g) (k : Nat) (c : Card)
    (hc : g.cards[k]? = some c) (hm : c.isMatched = true) :
    ∃ d, (run g es).cards[k]? = some d ∧ d.isMatched = true ∧ d.isFlipped = true := by
  induction es generalizing g c with
  | nil => exact ⟨c, hc, hm, h.matchedFlipped k c hc hm⟩
  | cons e rest ih =>
    obtain ⟨d, hd, hdm, -⟩ := step_keeps_isMatched g h e k c hc hm
    exact ih (step g e) (inv_step g e h) d hd hdm

/-- Events other than a revert leave the cards awaiting a revert alone and only
append to the revert queue. -/
theorem step_frame (g : MemoryGame) (h : Inv g) (e : Event) (he : e ≠ .revert) :
    (∀ k ∈ revertTargets g, (step g e).cards[k]? = g.cards[k]?) ∧
      ∃ added, (step g e).revertTimers = g.revertTimers ++ added := by
  cases e with
  | click now cardId => exact click_frame now cardId g h
  | pause =>
    simp only [step, togglePause]
    split <;> exact ⟨fun _ _ => rfl, [], by simp⟩
  | revert => exact absurd rfl he
  | tick now =>
    simp only [step, timerTick]
    split <;> exact ⟨fun _ _ => rfl, [], by simp⟩

/-- The oldest revert callback hides its two cards and touches no card captured
by a later callback. -/
theorem revert_frame (g : MemoryGame) (h : Inv g) (i1 i2 : Nat) (rest : List (Nat × Nat))
    (a b : Card) (hq : g.revertTimers = (i1, i2) :: rest) (ha : g.cards[i1]? = some a)
    (hb : g.cards[i2]? = some b) :
    (revertStep g).revertTimers = rest ∧
      (revertStep g).cards[i1]? = some { a with isFlipped := false } ∧
      (revertStep g).cards[i2]? = some { b with isFlipped := false } ∧
      ∀ k ∈ rest.flatMap (fun p => [p.1, p.2]), (revertStep g).cards[k]? = g.cards[k]? := by
  have hstep : revertStep g =
      { g with cards := setFlipped (setFlipped g.cards i1 false) i2 false,
               revertTimers := rest } := by
    simp [revertStep, hq]
  have htargets : revertTargets g = i1 :: i2 :: rest.flatMap (fun p => [p.1, p.2]) := by
    simp [revertTargets, hq]
  have hnd : (i1 :: i2 :: rest.flatMap (fun p => [p.1, p.2])).Nodup := by
    have := h.nodup
    rw [htargets, List.nodup_append] at this
    exact this.2.1
  simp only [List.nodup_cons, List.mem_cons, not_or] at hnd
  rw [hstep]
  refine ⟨rfl, ?_, ?_, ?_⟩
  · simp [setFlipped_getElem?, hnd.1.1, ha]
  · simp [setFlipped_getElem?, Ne.symm hnd.1.1, hb]
  · intro k hk
    have hk1 : k ≠ i1 := fun hh => hnd.1.2 (hh ▸ hk)
    have hk2 : k ≠ i2 := fun hh => hnd.2.1 (hh ▸ hk)
    simp [setFlipped_getElem?, hk1, hk2]

/-- A queued revert callback fires after exactly those queued before it, and
then both of its cards are hidden, whatever else happened in between. -/
theorem revert_eventually (es : List Event) (g : MemoryGame) (h : Inv g)
    (before after : List (Nat × Nat)) (i1 i2 : Nat) (a b : Card)
    (hq : g.revertTimers = before ++ (i1, i2) :: after) (ha : g.cards[i1]? = some a)
    (hb : g.cards[i2]? = some b) (hcount : es.count .revert = before.length) :
    (run g (es ++ [.revert])).cards[i1]? = some { a with isFlipped := false } ∧
      (run g (es ++ [.revert])).cards[i2]? = some { b with isFlipped := false } := by
  induction es generalizing g before after with
  | nil =>
    have hb0 : before = [] := List.length_eq_zero.mp (by simpa using hcount.symm)
    subst hb0
    obtain ⟨-, r1, r2, -⟩ := revert_frame g h i1 i2 after a b hq ha hb
    exact ⟨r1, r2⟩
  | cons e rest ih =>
    have hrun : run g (e :: rest ++ [.revert]) = run (step g e) (rest ++ [.revert]) := rfl
    rw [hrun]
    have hmem : i1 ∈ revertTargets g ∧ i2 ∈ revertTargets g := by
      simp [revertTargets, hq]
    by_cases he : e = .revert
    · subst he
      rw [List.count_cons_self] at hcount
      cases before with
      | nil => simp at hcount
      | cons q before2 =>
        obtain ⟨q1, q2⟩ := q
        obtain ⟨d1, hd1, -⟩ := h.faceUp q1 (by simp [revertTargets, hq])
        obtain ⟨d2, hd2, -⟩ := h.faceUp q2 (by simp [revertTargets, hq])
        obtain ⟨r0, -, -, r3⟩ := revert_frame g h q1 q2 (before2 ++ (i1, i2) :: after) d1 d2
          (by simpa using hq) hd1 hd2
        apply ih (step g .revert) (inv_step g .revert h) before2 after r0
        · rw [← ha]
          exact r3 i1 (by simp)
        · rw [← hb]
          exact r3 i2 (by simp)
        · simpa using hcount
    · obtain ⟨f1, added, f2⟩ := step_frame g h e he
      apply ih (step g e) (inv_step g e h) before (after ++ added)
      · rw [f2, hq]
        simp
      · rw [f1 i1 hmem.1, ha]
      · rw [f1 i2 hmem.2, hb]
      · rw [List.count_cons_of_ne (Ne.symm he)] at hcount
        exact hcount

theorem run_append (g : MemoryGame) (es fs : List Event) :
    run g (es ++ fs) = run (run g es) fs := by
  simp [run, List.foldl_append]

/-- Two clicks on hidden cards with different symbols, with nothing pending:
one move is counted and a revert is queued. -/
theorem mismatch_pair (g : MemoryGame) (h : Inv g) (t1 t2 : Int) (i j : Nat) (a b : Card)
    (hp : g.isPaused = false) (hfc : g.flippedCards = []) (hij : i ≠ j)
    (ha : g.cards[i]? = some a) (hb : g.cards[j]? = some b)
    (haf : a.isFlipped = false) (ham : a.isMatched = false)
    (hbf : b.isFlipped = false) (hbm : b.isMatched = false) (hs : a.symbol ≠ b.symbol) :
    run g [.click t1 i, .click t2 j] =
      { g with
        cards := setFlipped (setFlipped g.cards i true) j true
        moves := g.moves + 1
        revertTimers := g.revertTimers ++ [(i, j)] } := by
  have hf := findCard_of_ids_some i g.cards h.ids a ha
  have e1 := click_first t1 i g i a hp hf ha haf ham hfc
  have hinv1 := inv_handleCardClick t1 i g h
  have hrun : run g [.click t1 i, .click t2 j] =
      handleCardClick t2 j (handleCardClick t1 i g) := rfl
  rw [hrun]
  have hb1 : (handleCardClick t1 i g).cards[j]? = some b := by
    rw [e1]
    simp [setFlipped_getElem?, Ne.symm hij, hb]
  have ha1 : (handleCardClick t1 i g).cards[i]? = some { a with isFlipped := true } := by
    rw [e1]
    simp [setFlipped_getElem?, ha]
  have hp1 : (handleCardClick t1 i g).isPaused = false := by rw [e1]; exact hp
  have hfc1 : (handleCardClick t1 i g).flippedCards = [i] := by rw [e1]
  have hf1 := findCard_of_ids_some j _ hinv1.ids b hb1
  rw [click_mismatch t2 j (handleCardClick t1 i g) j i b { a with isFlipped := true } hp1 hf1 hb1
    hbf hbm hfc1 ha1 hij hs, e1]
  simp [hfc]

/-- After a mismatch on a quiet board and its revert the game is as before,
with one more move counted. -/
theorem mismatch_then_revert (g : MemoryGame) (h : Inv g) (t1 t2 : Int) (i j : Nat) (a b : Card)
    (hp : g.isPaused = false) (hfc : g.flippedCards = []) (hrt : g.revertTimers = [])
    (hij : i ≠ j) (ha : g.cards[i]? = some a) (hb : g.cards[j]? = some b)
    (haf : a.isFlipped = false) (ham : a.isMatched = false)
    (hbf : b.isFlipped = false) (hbm : b.isMatched = false) (hs : a.symbol ≠ b.symbol) :
    run g [.click t1 i, .click t2 j, .revert] = { g with moves := g.moves + 1 } := by
  have hrun : run g [.click t1 i, .click t2 j, .revert] =
      revertStep (run g [.click t1 i, .click t2 j]) := rfl
  rw [hrun, mismatch_pair g h t1 t2 i j a b hp hfc hij ha hb haf ham hbf hbm hs]
  have hcards : setFlipped (setFlipped (setFlipped (setFlipped g.cards i true) j true) i false) j
      false = g.cards := by
    apply List.ext_getElem?
    intro k
    simp only [setFlipped_getElem?]
    by_cases hkj : k = j
    · subst hkj
      have hki : ¬ k = i := fun hh => hij hh.symm
      simp [hki, hb]
      cases b
      simp_all
    · by_cases hki : k = i
      · subst hki
        simp [hkj, ha]
        cases a
        simp_all
      · simp [hkj, hki]
  simp [revertStep, hrt, hcards, hfc]

/-- Two clicks on hidden cards with equal symbols, with nothing pending: one move,
one pair and 100 points are counted and both cards are matched and face-up. -/
theorem match_pair (g : MemoryGame) (h : Inv g) (t1 t2 : Int) (i j : Nat) (a b : Card)
    (hp : g.isPaused = false) (hfc : g.flippedCards = []) (hij : i ≠ j)
    (ha : g.cards[i]? = some a) (hb : g.cards[j]? = some b)
    (haf : a.isFlipped = false) (ham : a.isMatched = false)
    (hbf : b.isFlipped = false) (hbm : b.isMatched = false) (hs : a.symbol = b.symbol) :
    (run g [.click t1 i, .click t2 j]).moves = g.moves + 1 ∧
      (run g [.click t1 i, .click t2 j]).score = g.score + 100 ∧
      (run g [.click t1 i, .click t2 j]).matchedPairs = g.matchedPairs + 1 ∧
      (run g [.click t1 i, .click t2 j]).cards[i]? =
        some { a with isFlipped := true, isMatched := true } ∧
      (run g [.click t1 i, .click t2 j]).cards[j]? =
        some { b with isFlipped := true, isMatched := true } := by
  have hf := findCard_of_ids_some i g.cards h.ids a ha
  have e1 := click_first t1 i g i a hp hf ha haf ham hfc
  have hinv1 := inv_handleCardClick t1 i g h
  have hrun : run g [.click t1 i, .click t2 j] =
      handleCardClick t2 j (handleCardClick t1 i g) := rfl
  rw [hrun]
  have hb1 : (handleCardClick t1 i g).cards[j]? = some b := by
    rw [e1]
    simp [setFlipped_getElem?, Ne.symm hij, hb]
  have ha1 : (handleCardClick t1 i g).cards[i]? = some { a with isFlipped := true } := by
    rw [e1]
    simp [setFlipped_getElem?, ha]
  have hp1 : (handleCardClick t1 i g).isPaused = false := by rw [e1]; exact hp
  have hfc1 : (handleCardClick t1 i g).flippedCards = [i] := by rw [e1]
  have hf1 := findCard_of_ids_some j _ hinv1.ids b hb1
  obtain ⟨c1, -, c3, c4, c5, -⟩ :=
    click_match t2 j (handleCardClick t1 i g) j i b { a with isFlipped := true } hp1 hf1 hb1
      hbf hbm hfc1 ha1 hij hs
  rw [c1, c3, c4, c5, e1]
  refine ⟨rfl, rfl, rfl, ?_, ?_⟩
  · simp [setMatched_getElem?, setFlipped_getElem?, hij, ha]
  · simp [setMatched_getElem?, setFlipped_getElem?, Ne.symm hij, hb]

/-- A click on a hidden, unmatched card of a running, unpaused game turns that
card face-up. -/
theorem click_hidden_flips (now : Int) (g : MemoryGame) (h : Inv g) (k : Nat) (c : Card)
    (hp : g.isPaused = false) (hc : g.cards[k]? = some c) (hfl : c.isFlipped = false)
    (hm : c.isMatched = false) :
    ∃ d, (handleCardClick now k g).cards[k]? = some d ∧ d.isFlipped = true := by
  have hf := findCard_of_ids_some k g.cards h.ids c hc
  have hpl := h.pendingLe
  cases hfc : g.flippedCards with
  | nil =>
    rw [click_first now k g k c hp hf hc hfl hm hfc]
    exact ⟨{ c with isFlipped := true }, by simp [setFlipped_getElem?, hc], rfl⟩
  | cons i1 tl =>
    have htl : tl = [] := by
      rw [hfc] at hpl
      simp at hpl
      exact hpl
    subst htl
    obtain ⟨c1, hc1, hc1f, hc1m⟩ := h.faceUp i1 (by simp [hfc])
    have hne : i1 ≠ k := by
      rintro rfl
      rw [hc] at hc1
      cases hc1
      rw [hfl] at hc1f
      cases hc1f
    by_cases hs : c1.symbol = c.symbol
    · obtain ⟨e1, -⟩ := click_match now k g k i1 c c1 hp hf hc hfl hm hfc hc1 hne hs
      rw [e1]
      exact ⟨{ c with isFlipped := true, isMatched := true },
        by simp [setMatched_getElem?, setFlipped_getElem?, hc, Ne.symm hne], rfl⟩
    · rw [click_mismatch now k g k i1 c c1 hp hf hc hfl hm hfc hc1 hne hs]
      exact ⟨{ c with isFlipped := true }, by simp [setFlipped_getElem?, hc], rfl⟩

/-! ## The claims -/

/-- C1: the deck `createCards` builds does not pair its symbols up: the first
eight entries of `this.symbols` contain the target emoji twice, so whatever the
shuffle draws, that symbol lies on four of the sixteen cards. -/
theorem createCards_symbol_on_four_cards :
    ¬ (symbols.take 8).Nodup ∧
      ∀ rand : (i : Nat) → Fin (i + 1), ((createCards rand).map (·.symbol)).count "🎯" = 4 := by
  refine ⟨by decide, ?_⟩
  intro rand
  unfold createCards
  rw [toCards_symbols, (shuffle_perm rand cardData).count_eq]
  decide

/-- C9: the Fisher-Yates loop returns, for every draw, a list of the same length
that is a permutation of its input; the cards made from it carry their position
as id and are neither flipped nor matched; and no event of a game changes the
order, the ids or the symbols of the cards. -/
theorem shuffle_permutation_cards_fixed {α : Type} (rand : (i : Nat) → Fin (i + 1))
    (xs : List α) :
    (shuffle rand xs).length = xs.length ∧ (shuffle rand xs).Perm xs ∧
      (createCards rand).map (·.symbol) = shuffle rand cardData ∧
      (∀ (k : Nat) (c : Card), (createCards rand)[k]? = some c →
        c.id = k ∧ c.isFlipped = false ∧ c.isMatched = false) ∧
      (∀ (g : MemoryGame) (e : Event),
        (step g e).cards.map (fun c => (c.id, c.symbol)) =
          g.cards.map (fun c => (c.id, c.symbol))) :=
  ⟨(shuffle_perm rand xs).length_eq, shuffle_perm rand xs, toCards_symbols 0 _,
    createCards_getElem? rand, step_ids⟩

/-- Witness for C9: the draw `randExample` on the sixteen symbols of `cardData`,
and the card it puts at position 2. -/
theorem shuffle_permutation_cards_fixed_witness :
    (shuffle randExample cardData).length = cardData.length ∧
      (shuffle randExample cardData).Perm cardData ∧
      (createCards randExample)[2]? =
        some { id := 2, symbol := "🎯", isFlipped := false, isMatched := false } ∧
      (step exampleGame (.click 1 2)).cards.map (fun c => (c.id, c.symbol)) =
        exampleGame.cards.map (fun c => (c.id, c.symbol)) :=
  ⟨(shuffle_permutation_cards_fixed randExample cardData).1,
    (shuffle_permutation_cards_fixed randExample cardData).2.1, by decide,
    (shuffle_permutation_cards_fixed randExample cardData).2.2.2.2 exampleGame (.click 1 2)⟩

/-- C2 fails on the code: pausing stops the interval and resuming restarts it,
but `startTime` is never shifted.  New game at 0 ms, pause at 1000 ms, resume at
5000 ms: at 6000 ms the timer shows 6 seconds and a record saved then stores 6,
where `((t - s) - (r - p)) / 1000` is 2.  In general, after `newGame` at time `s`
and any clicks, pause presses, reverts and ticks, the elapsed seconds computed at
time `t`, and the time of a record made at `t`, are `(t - s) / 1000` rounded
down; a tick shows that value when the interval is armed and the game not
paused and leaves the display as it is otherwise; and until the game is
complete the interval is armed exactly while the game is not paused. -/
theorem elapsed_counts_pause_window :
    ((timerTick 6000
        (togglePause (togglePause (newGame 0 randSelf (constructed []))))).timeElement = 6 ∧
      ((saveHighScore 6000
        (togglePause (togglePause (newGame 0 randSelf (constructed []))))).memoryHighScores.map
          (·.time)) = [6] ∧
      (timerTick 6000
        (togglePause (togglePause (newGame 0 randSelf (constructed []))))).timeElement
        ≠ ((6000 - 0) - (5000 - 1000)) / 1000 ∧
      timerTick 3000 (togglePause (timerTick 1000 (newGame 0 randSelf (constructed [])))) =
        togglePause (timerTick 1000 (newGame 0 randSelf (constructed [])))) ∧
    ∀ (s t : Int) (rand : (i : Nat) → Fin (i + 1)) (g0 : MemoryGame) (es : List Event),
      elapsed t (run (newGame s rand g0) es) = (t - s) / 1000 ∧
      (newScore t (run (newGame s rand g0) es)).time = (t - s) / 1000 ∧
      (timerTick t (run (newGame s rand g0) es)).timeElement =
        (if (run (newGame s rand g0) es).gameTimer && !(run (newGame s rand g0) es).isPaused
          then (t - s) / 1000 else (run (newGame s rand g0) es).timeElement) ∧
      ((run (newGame s rand g0) es).completions ≠ 0 ∨
        (run (newGame s rand g0) es).gameTimer = !(run (newGame s rand g0) es).isPaused) := by
  refine ⟨⟨by decide, by decide, by decide, by decide⟩, ?_⟩
  intro s t rand g0 es
  have hel : elapsed t (run (newGame s rand g0) es) = (t - s) / 1000 := by
    simp [elapsed, run_startTime, newGame]
  refine ⟨hel, hel, ?_, ?_⟩
  · unfold timerTick
    split
    · exact hel
    · rfl
  · apply run_timer
    right
    simp [newGame]

/-- C7: a click is ignored, leaving every field of the game as it was, when the
game is paused, when no card of the deck has the clicked id, or when the card
found is already face-up or matched; in a running game no card has an id of 16
or more. -/
theorem guarded_click_is_noop (now : Int) (cardId : Nat) (g : MemoryGame) :
    (g.isPaused = true ∨ (∀ c ∈ g.cards, c.id ≠ cardId) ∨
        (∃ i c, findCard cardId g.cards = some i ∧ g.cards[i]? = some c ∧
          (c.isFlipped = true ∨ c.isMatched = true)) →
      handleCardClick now cardId g = g) ∧
    (Reachable g → 16 ≤ cardId → handleCardClick now cardId g = g) := by
  constructor
  · rintro (h | h | ⟨i, c, hf, hc, h⟩)
    · exact click_paused now cardId g h
    · exact click_unknown now cardId g ((findCard_none cardId g.cards).mpr h)
    · exact click_shown now cardId g i c hf hc h
  · intro hr hge
    have hinv := inv_of_reachable g hr
    apply click_unknown
    rw [findCard_none]
    intro c hc hid
    obtain ⟨k, hk⟩ := List.mem_iff_getElem?.mp hc
    have hlt : k < g.cards.length := (List.getElem?_eq_some_iff.mp hk).1
    have := hinv.ids k c hk
    have := hinv.deck
    omega

/-- C8: the list `saveHighScore` stores has at most ten entries, is sorted by
non-increasing score, and is the first ten entries of the stable descending sort
of the old list followed by the new entry: the one arrangement of that list
which is sorted by non-increasing score and keeps entries of equal score in
their order. -/
theorem saveHighScore_keeps_top_ten (now : Int) (g : MemoryGame) :
    ((saveHighScore now g).memoryHighScores.length ≤ 10 ∧
      (saveHighScore now g).memoryHighScores.Sorted (fun a b => b.score ≤ a.score)) ∧
    ∃ sorted : List HighScoreEntry,
      (saveHighScore now g).memoryHighScores = sorted.take 10 ∧
      sorted.Perm (g.memoryHighScores ++ [newScore now g]) ∧
      sorted.Sorted (fun a b => b.score ≤ a.score) ∧
      (∀ s : Int, sorted.filter (fun e => e.score = s) =
        (g.memoryHighScores ++ [newScore now g]).filter (fun e => e.score = s)) ∧
      ∀ other : List HighScoreEntry, other.Sorted (fun a b => b.score ≤ a.score) →
        (∀ s : Int, other.filter (fun e => e.score = s) =
          (g.memoryHighScores ++ [newScore now g]).filter (fun e => e.score = s)) →
        other = sorted := by
  refine ⟨⟨?_, ?_⟩, _, rfl, sort_perm _ _, sort_compareScores_sorted _, fun s =>
    sort_compareScores_stable s _, ?_⟩
  · simp [saveHighScore, pushSortSplice]
  · exact (sort_compareScores_sorted _).sublist (List.take_sublist _ _)
  · intro other hsorted hstable
    apply stable_sorted_unique other _ hsorted (sort_compareScores_sorted _)
    intro s
    rw [hstable s, sort_compareScores_stable]

/-- Witness for C8: a new entry of score 800 is placed after a stored entry of
the same score and before one of a lower score. -/
theorem saveHighScore_keeps_top_ten_witness :
    (saveHighScore 16000 { completedGame with memoryHighScores := sampleStorage }).memoryHighScores =
      [{ score := 800, moves := 20, time := 90, date := 7 },
        { score := 800, moves := 8, time := 16, date := 16000 },
        { score := 300, moves := 9, time := 40, date := 3 }] := by
  obtain ⟨-, sorted, h1, -, -, -, h5⟩ :=
    saveHighScore_keeps_top_ten 16000 { completedGame with memoryHighScores := sampleStorage }
  have hnew : newScore 16000 { completedGame with memoryHighScores := sampleStorage } =
      { score := 800, moves := 8, time := 16, date := 16000 } := by decide
  rw [hnew] at h5
  rw [h1, ← h5 [{ score := 800, moves := 20, time := 90, date := 7 },
        { score := 800, moves := 8, time := 16, date := 16000 },
        { score := 300, moves := 9, time := 40, date := 3 }] (by decide) (by
          intro s
          by_cases h8 : (800 : Int) = s
          · subst h8
            decide
          · by_cases h3 : (300 : Int) = s
            · subst h3
              decide
            · simp [sampleStorage, List.filter_cons, h8, h3])]
  rfl

/-- C3 fails on the code: in a fresh unshuffled game, after clicks on cards 0
and 1 (a mismatch) both are face-up and unmatched with their revert still
queued, yet the pending list is already empty, so a click on card 2 is accepted
and a third, then a fourth unmatched card is face-up. -/
theorem third_click_accepted_before_revert :
    (run freshGame [.click 1 0, .click 2 1]).cards.countP (fun c => c.isFlipped && !c.isMatched)
        = 2 ∧
      (run freshGame [.click 1 0, .click 2 1]).revertTimers = [(0, 1)] ∧
      (run freshGame [.click 1 0, .click 2 1]).flippedCards = [] ∧
      handleCardClick 3 2 (run freshGame [.click 1 0, .click 2 1]) ≠
        run freshGame [.click 1 0, .click 2 1] ∧
      (handleCardClick 3 2 (run freshGame [.click 1 0, .click 2 1])).cards.countP
        (fun c => c.isFlipped && !c.isMatched) = 3 ∧
      (run freshGame [.click 1 0, .click 2 1, .click 3 2, .click 4 3]).cards.countP
        (fun c => c.isFlipped && !c.isMatched) = 4 := by
  refine ⟨by decide, by decide, by decide, by decide, by decide, by decide⟩

/-- C4: in a running game `gameComplete` has been called once if all eight pairs
are matched and not at all otherwise; an event calls it exactly when it raises
`matchedPairs` to `cards.length / 2 = 8`, that event is a click and at least
eight moves have then been made; and once eight pairs are matched every click
leaves the game unchanged. -/
theorem completion_once_and_terminal (g : MemoryGame) (h : Reachable g) :
    g.cards.length / 2 = 8 ∧ g.matchedPairs ≤ 8 ∧
      g.completions = (if g.matchedPairs = 8 then 1 else 0) ∧
      (∀ e : Event, (step g e).completions =
        g.completions + (if g.matchedPairs < 8 ∧ (step g e).matchedPairs = 8 then 1 else 0)) ∧
      (∀ e : Event, g.matchedPairs < 8 → (step g e).matchedPairs = 8 →
        (∃ now cardId, e = .click now cardId) ∧ 8 ≤ (step g e).moves) ∧
      (g.matchedPairs = 8 → 8 ≤ g.moves ∧ ∀ now cardId, handleCardClick now cardId g = g) := by
  have hinv := inv_of_reachable g h
  have hdeck := hinv.deck
  have hle := matchedPairs_le g hinv
  have hcomp : ∀ g2 : MemoryGame, Inv g2 →
      g2.completions = (if g2.matchedPairs = 8 then 1 else 0) := by
    intro g2 h2
    rw [h2.completionsEq, h2.deck]
    by_cases h8 : g2.matchedPairs = 8
    · simp [h8]
    · have : ¬ 2 * g2.matchedPairs = 16 := by omega
      simp [h8, this]
  refine ⟨by omega, hle, hcomp g hinv, ?_, ?_, ?_⟩
  · intro e
    have hinv2 := inv_step g e hinv
    rw [hcomp _ hinv2, hcomp g hinv]
    by_cases h8 : g.matchedPairs = 8
    · have hsame : (step g e).matchedPairs = 8 := by
        cases e with
        | click now cardId =>
          simp only [step]
          rw [click_after_completion now cardId g hinv h8]
          exact h8
        | pause => rw [step_matchedPairs_of_not_click g _ (by intro _ _ hh; cases hh)]; exact h8
        | revert => rw [step_matchedPairs_of_not_click g _ (by intro _ _ hh; cases hh)]; exact h8
        | tick now => rw [step_matchedPairs_of_not_click g _ (by intro _ _ hh; cases hh)]; exact h8
      simp [h8, hsame]
    · have hlt : g.matchedPairs < 8 := by omega
      simp [h8, hlt]
  · intro e hlt h8
    constructor
    · cases e with
      | click now cardId => exact ⟨now, cardId, rfl⟩
      | pause =>
        rw [step_matchedPairs_of_not_click g _ (by intro _ _ hh; cases hh)] at h8
        omega
      | revert =>
        rw [step_matchedPairs_of_not_click g _ (by intro _ _ hh; cases hh)] at h8
        omega
      | tick now =>
        rw [step_matchedPairs_of_not_click g _ (by intro _ _ hh; cases hh)] at h8
        omega
    · have := (inv_step g e hinv).pairsLeMoves
      omega
  · intro h8
    refine ⟨?_, fun now cardId => click_after_completion now cardId g hinv h8⟩
    have := hinv.pairsLeMoves
    omega

/-- Witness for C4: the sixteen clicks that finish an unshuffled game. -/
theorem completion_once_and_terminal_witness :
    Reachable completedGame ∧ completedGame.matchedPairs = 8 ∧ completedGame.completions = 1 ∧
      8 ≤ completedGame.moves ∧
      ∀ now cardId, handleCardClick now cardId completedGame = completedGame :=
  have hr : Reachable completedGame := reachable_run _ _ (Reachable.start 0 randSelf _)
  have h8 : completedGame.matchedPairs = 8 := by decide
  ⟨hr, h8, by decide, ((completion_once_and_terminal completedGame hr).2.2.2.2.2 h8).1,
    ((completion_once_and_terminal completedGame hr).2.2.2.2.2 h8).2⟩

/-- C5: in a running, unpaused game with one pending card `c1`, a click on a
hidden unmatched card `c2` of the same symbol leaves both matched and face-up,
adds 100 to the score, one to `matchedPairs` and one to `moves`, empties the
pending list and changes no other card; and no later click, pause, revert or
tick of that game un-matches or hides either card. -/
theorem match_outcome (g : MemoryGame) (hr : Reachable g) (now : Int) (i1 i2 : Nat)
    (c1 c2 : Card) (hp : g.isPaused = false) (h1 : g.flippedCards = [i1])
    (hc1 : g.cards[i1]? = some c1) (hc2 : g.cards[i2]? = some c2)
    (hfl : c2.isFlipped = false) (hm : c2.isMatched = false) (hs : c2.symbol = c1.symbol) :
    (handleCardClick now c2.id g).cards[i1]? =
        some { id := c1.id, symbol := c1.symbol, isFlipped := true, isMatched := true } ∧
      (handleCardClick now c2.id g).cards[i2]? =
        some { id := c2.id, symbol := c2.symbol, isFlipped := true, isMatched := true } ∧
      (handleCardClick now c2.id g).score = g.score + 100 ∧
      (handleCardClick now c2.id g).matchedPairs = g.matchedPairs + 1 ∧
      (handleCardClick now c2.id g).moves = g.moves + 1 ∧
      (handleCardClick now c2.id g).flippedCards = [] ∧
      (∀ k, k ≠ i1 → k ≠ i2 → (handleCardClick now c2.id g).cards[k]? = g.cards[k]?) ∧
      (∀ (es : List Event) (k : Nat), k = i1 ∨ k = i2 →
        ∃ d, (run (handleCardClick now c2.id g) es).cards[k]? = some d ∧
          d.isMatched = true ∧ d.isFlipped = true) := by
  have hinv := inv_of_reachable g hr
  have hid : c2.id = i2 := hinv.ids i2 c2 hc2
  rw [hid]
  have hf := findCard_of_ids_some i2 g.cards hinv.ids c2 hc2
  obtain ⟨d1, hd1, hd1f, hd1m⟩ := hinv.faceUp i1 (by simp [h1])
  rw [hc1] at hd1
  cases hd1
  have hne : i1 ≠ i2 := by
    rintro rfl
    rw [hc1] at hc2
    cases hc2
    rw [hfl] at hd1f
    cases hd1f
  obtain ⟨e1, e2, e3, e4, e5, -⟩ :=
    click_match now i2 g i2 i1 c2 c1 hp hf hc2 hfl hm h1 hc1 hne hs.symm
  have hinv2 := inv_handleCardClick now i2 g hinv
  have k1 : (handleCardClick now i2 g).cards[i1]? =
      some { id := c1.id, symbol := c1.symbol, isFlipped := true, isMatched := true } := by
    rw [e1]
    simp [setMatched_getElem?, setFlipped_getElem?, hne, hc1, hd1f]
  have k2 : (handleCardClick now i2 g).cards[i2]? =
      some { id := i2, symbol := c2.symbol, isFlipped := true, isMatched := true } := by
    rw [e1]
    simp [setMatched_getElem?, setFlipped_getElem?, Ne.symm hne, hc2, hid]
  refine ⟨k1, k2, e5, e4, e3, e2, ?_, ?_⟩
  · intro k hk1 hk2
    rw [e1]
    simp [setMatched_getElem?, setFlipped_getElem?, hk1, hk2]
  · intro es k hk
    rcases hk with hk | hk
    · subst hk
      exact run_keeps_isMatched es _ hinv2 k _ k1 rfl
    · subst hk
      exact run_keeps_isMatched es _ hinv2 k _ k2 rfl

/-- Witness for C5: in the unshuffled game card 0 is pending and card 7, which
has the same symbol, is clicked. -/
theorem match_outcome_witness :
    (handleCardClick 2 7 (run freshGame [.click 1 0])).score =
        (run freshGame [.click 1 0]).score + 100 ∧
      (handleCardClick 2 7 (run freshGame [.click 1 0])).flippedCards = [] ∧
      ∀ (es : List Event) (k : Nat), k = 0 ∨ k = 7 →
        ∃ d, (run (handleCardClick 2 7 (run freshGame [.click 1 0])) es).cards[k]? = some d ∧
          d.isMatched = true ∧ d.isFlipped = true :=
  have h := match_outcome (run freshGame [.click 1 0])
    (reachable_run _ _ (Reachable.start 0 randSelf (constructed []))) 2 0 7
    { id := 0, symbol := "🎯", isFlipped := true, isMatched := false }
    { id := 7, symbol := "🎯", isFlipped := false, isMatched := false }
    (by decide) (by decide) (by decide) (by decide) rfl rfl rfl
  ⟨h.2.2.1, h.2.2.2.2.2.1, h.2.2.2.2.2.2.2⟩

/-- C6: in a running, unpaused game with one pending card `c1`, a click on a
hidden unmatched card `c2` of another symbol adds one to `moves`, leaves score
and `matchedPairs` alone, empties the pending list at once, matches neither card
and queues their revert; when that revert has fired, after those queued before
it, both cards are hidden and unmatched and a click turns either face-up again.
On a new deck with equal symbols on cards 0 and 2 and another on card 1:
clicking 0 then 1 gives one move and score 0, both cards are hidden after the
revert, and clicking 0 then 2 gives two moves, score 100 and one matched pair. -/
theorem mismatch_outcome (g : MemoryGame) (hr : Reachable g) (now : Int) (i1 i2 : Nat)
    (c1 c2 : Card) (hp : g.isPaused = false) (h1 : g.flippedCards = [i1])
    (hc1 : g.cards[i1]? = some c1) (hc2 : g.cards[i2]? = some c2)
    (hfl : c2.isFlipped = false) (hm : c2.isMatched = false) (hs : c2.symbol ≠ c1.symbol) :
    ((handleCardClick now c2.id g).moves = g.moves + 1 ∧
      (handleCardClick now c2.id g).score = g.score ∧
      (handleCardClick now c2.id g).matchedPairs = g.matchedPairs ∧
      (handleCardClick now c2.id g).flippedCards = [] ∧
      (handleCardClick now c2.id g).cards[i1]? = some c1 ∧ c1.isMatched = false ∧
      (handleCardClick now c2.id g).cards[i2]? = some { c2 with isFlipped := true } ∧
      (handleCardClick now c2.id g).revertTimers = g.revertTimers ++ [(i1, i2)]) ∧
    (∀ es : List Event, es.count .revert = g.revertTimers.length →
      (run (handleCardClick now c2.id g) (es ++ [.revert])).cards[i1]? =
          some { c1 with isFlipped := false } ∧
        (run (handleCardClick now c2.id g) (es ++ [.revert])).cards[i2]? =
          some { c2 with isFlipped := false } ∧
        ∀ (t : Int) (k : Nat), k = i1 ∨ k = i2 →
          (run (handleCardClick now c2.id g) (es ++ [.revert])).isPaused = false →
          ∃ d, (handleCardClick t k
              (run (handleCardClick now c2.id g) (es ++ [.revert]))).cards[k]? = some d ∧
            d.isFlipped = true) ∧
    (∀ (t0 t1 t2 t3 t4 : Int) (rand : (i : Nat) → Fin (i + 1)) (g0 : MemoryGame) (a b c : Card),
      (createCards rand)[0]? = some a → (createCards rand)[1]? = some b →
      (createCards rand)[2]? = some c → a.symbol = c.symbol → a.symbol ≠ b.symbol →
      (run (newGame t0 rand g0) [.click t1 0, .click t2 1]).moves = 1 ∧
        (run (newGame t0 rand g0) [.click t1 0, .click t2 1]).score = 0 ∧
        (run (newGame t0 rand g0) [.click t1 0, .click t2 1, .revert]).cards[0]? = some a ∧
        (run (newGame t0 rand g0) [.click t1 0, .click t2 1, .revert]).cards[1]? = some b ∧
        a.isFlipped = false ∧ b.isFlipped = false ∧
        (run (newGame t0 rand g0)
          [.click t1 0, .click t2 1, .revert, .click t3 0, .click t4 2]).moves = 2 ∧
        (run (newGame t0 rand g0)
          [.click t1 0, .click t2 1, .revert, .click t3 0, .click t4 2]).score = 100 ∧
        (run (newGame t0 rand g0)
          [.click t1 0, .click t2 1, .revert, .click t3 0, .click t4 2]).matchedPairs = 1) := by
  have hinv := inv_of_reachable g hr
  have hid : c2.id = i2 := hinv.ids i2 c2 hc2
  rw [hid]
  have hf := findCard_of_ids_some i2 g.cards hinv.ids c2 hc2
  obtain ⟨d1, hd1, hd1f, hd1m⟩ := hinv.faceUp i1 (by simp [h1])
  rw [hc1] at hd1
  cases hd1
  have hne : i1 ≠ i2 := by
    rintro rfl
    rw [hc1] at hc2
    cases hc2
    rw [hfl] at hd1f
    cases hd1f
  have hstep := click_mismatch now i2 g i2 i1 c2 c1 hp hf hc2 hfl hm h1 hc1 hne (Ne.symm hs)
  have hinv2 := inv_handleCardClick now i2 g hinv
  have k1 : (handleCardClick now i2 g).cards[i1]? = some c1 := by
    rw [hstep]
    simp [setFlipped_getElem?, hne, hc1]
  have k2 : (handleCardClick now i2 g).cards[i2]? =
      some { id := i2, symbol := c2.symbol, isFlipped := true, isMatched := c2.isMatched } := by
    rw [hstep]
    simp [setFlipped_getElem?, hc2, hid]
  have k3 : (handleCardClick now i2 g).revertTimers = g.revertTimers ++ [(i1, i2)] := by
    rw [hstep]
  refine ⟨⟨by rw [hstep], by rw [hstep], by rw [hstep], by rw [hstep], k1, hd1m, k2, k3⟩, ?_, ?_⟩
  · intro es hcount
    obtain ⟨r1, r2⟩ := revert_eventually es _ hinv2 g.revertTimers [] i1 i2 c1
      { id := i2, symbol := c2.symbol, isFlipped := true, isMatched := c2.isMatched } k3 k1 k2
      hcount
    refine ⟨r1, r2, ?_⟩
    intro t k hk hpaused
    have hinv3 := inv_run _ (es ++ [.revert]) hinv2
    rcases hk with hk | hk
    · subst hk
      exact click_hidden_flips t _ hinv3 k _ hpaused r1 rfl hd1m
    · subst hk
      exact click_hidden_flips t _ hinv3 k _ hpaused r2 rfl hm
  · intro t0 t1 t2 t3 t4 rand g0 a b c ha hb hc hac hab
    have hN := inv_newGame t0 rand g0
    have hcards := newGame_cards t0 rand g0
    have hNp : (newGame t0 rand g0).isPaused = false := by simp only [newGame]
    have hNf : (newGame t0 rand g0).flippedCards = [] := by simp only [newGame]
    have hNr : (newGame t0 rand g0).revertTimers = [] := by simp only [newGame]
    have hNm : (newGame t0 rand g0).moves = 0 := by simp only [newGame]
    have hNs : (newGame t0 rand g0).score = 0 := by simp only [newGame]
    have hNmp : (newGame t0 rand g0).matchedPairs = 0 := by simp only [newGame]
    obtain ⟨-, haf, ham⟩ := createCards_getElem? rand 0 a ha
    obtain ⟨-, hbf, hbm⟩ := createCards_getElem? rand 1 b hb
    obtain ⟨-, hcf, hcm⟩ := createCards_getElem? rand 2 c hc
    rw [← hcards] at ha hb hc
    generalize newGame t0 rand g0 = G at *
    have e1 := mismatch_pair G hN t1 t2 0 1 a b hNp hNf (by decide) ha hb haf ham hbf hbm hab
    have e2 := mismatch_then_revert G hN t1 t2 0 1 a b hNp hNf hNr (by decide) ha hb haf ham
      hbf hbm hab
    have hsplit : run G [.click t1 0, .click t2 1, .revert, .click t3 0, .click t4 2] =
        run (run G [.click t1 0, .click t2 1, .revert]) [.click t3 0, .click t4 2] :=
      run_append G [.click t1 0, .click t2 1, .revert] [.click t3 0, .click t4 2]
    have hinv3 := inv_run G [.click t1 0, .click t2 1, .revert] hN
    rw [hsplit]
    obtain ⟨m1, m2, m3, -⟩ := match_pair _ hinv3 t3 t4 0 2 a c (by rw [e2]; exact hNp)
      (by rw [e2]; exact hNf) (by decide) (by rw [e2]; exact ha) (by rw [e2]; exact hc)
      haf ham hcf hcm hac
    rw [m1, m2, m3, e2, e1]
    simp [hNm, hNs, hNmp, ha, hb, haf, hbf]

/-- Witness for C6: on the deck of `exampleGame` card 0 is pending and card 1,
which has another symbol, is clicked; the revert then fires at once. -/
theorem mismatch_outcome_witness :
    (handleCardClick 2 1 (run exampleGame [.click 1 0])).moves = 1 ∧
      (run (handleCardClick 2 1 (run exampleGame [.click 1 0])) ([] ++ [.revert])).cards[0]? =
        some { id := 0, symbol := "🎯", isFlipped := false, isMatched := false } ∧
      (run exampleGame [.click 1 0, .click 2 1, .revert, .click 3 0, .click 4 2]).score = 100 :=
  have h := mismatch_outcome (run exampleGame [.click 1 0])
    (reachable_run _ _ (Reachable.start 0 randExample (constructed []))) 2 0 1
    { id := 0, symbol := "🎯", isFlipped := true, isMatched := false }
    { id := 1, symbol := "🎨", isFlipped := false, isMatched := false }
    (by decide) (by decide) (by decide) (by decide) rfl rfl (by decide)
  ⟨h.1.1, (h.2.1 [] (by decide)).1,
    (h.2.2 0 1 2 3 4 randExample (constructed [])
      { id := 0, symbol := "🎯", isFlipped := false, isMatched := false }
      { id := 1, symbol := "🎨", isFlipped := false, isMatched := false }
      { id := 2, symbol := "🎯", isFlipped := false, isMatched := false }
      (by decide) (by decide) (by decide) (by decide) (by decide)).2.2.2.2.2.2.2.1⟩

/-- Witness for C7: a click on a paused game, and a click with id 16. -/
theorem guarded_click_is_noop_witness :
    (togglePause freshGame).isPaused = true ∧
      handleCardClick 5 3 (togglePause freshGame) = togglePause freshGame ∧
      handleCardClick 5 16 freshGame = freshGame :=
  ⟨by decide, (guarded_click_is_noop 5 3 (togglePause freshGame)).1 (Or.inl (by decide)),
    (guarded_click_is_noop 5 16 freshGame).2 (Reachable.start 0 randSelf (constructed []))
      (by decide)⟩

/-- C10: in a running game the score is 100 times `matchedPairs`, the matched
cards number twice `matchedPairs`, and `matchedPairs` is at most `moves`; so a
finished game has score 800, and the click that calls `gameComplete` leaves as
stored list the first ten entries of the stable descending sort of the old list
followed by an entry of score 800: that entry is in the stored list when fewer
than ten were stored, and a list of ten entries of score 800 stays as it was. -/
theorem score_invariant (g : MemoryGame) (hr : Reachable g) :
    g.score = 100 * g.matchedPairs ∧ g.cards.countP (·.isMatched) = 2 * g.matchedPairs ∧
      g.matchedPairs ≤ g.moves ∧ (g.matchedPairs = 8 → g.score = 800) ∧
      (∀ (now : Int) (cardId : Nat),
        (handleCardClick now cardId g).completions = g.completions + 1 →
        (handleCardClick now cardId g).score = 800 ∧
        ∃ entry : HighScoreEntry,
          entry =
            { score := 800, moves := (g.moves : Int) + 1, time := elapsed now g, date := now } ∧
          (∃ sorted : List HighScoreEntry,
            (handleCardClick now cardId g).memoryHighScores = sorted.take 10 ∧
            sorted.Perm (g.memoryHighScores ++ [entry]) ∧
            sorted.Sorted (fun a b => b.score ≤ a.score) ∧
            ∀ s : Int, sorted.filter (fun e => e.score = s) =
              (g.memoryHighScores ++ [entry]).filter (fun e => e.score = s)) ∧
          (g.memoryHighScores.length < 10 →
            entry ∈ (handleCardClick now cardId g).memoryHighScores) ∧
          (g.memoryHighScores.length = 10 → (∀ e ∈ g.memoryHighScores, e.score = 800) →
            (handleCardClick now cardId g).memoryHighScores = g.memoryHighScores)) := by
  have hinv := inv_of_reachable g hr
  refine ⟨hinv.scoreEq, hinv.matchedCount, hinv.pairsLeMoves, ?_, ?_⟩
  · intro h8
    rw [hinv.scoreEq, h8]
  · intro now cardId hcomp
    rcases click_cases now cardId g hinv with hno | ⟨i, c, hp, hf, hc, hfl, hm, hfc | hsnd⟩
    · rw [hno] at hcomp
      omega
    · rw [click_first now cardId g i c hp hf hc hfl hm hfc] at hcomp
      simp at hcomp
    · obtain ⟨i1, c1, hfc, hc1, hc1f, hc1m, hne⟩ := hsnd
      by_cases hs : c1.symbol = c.symbol
      · obtain ⟨-, -, -, -, e5, -, -, -, e9⟩ :=
          click_match now cardId g i i1 c c1 hp hf hc hfl hm hfc hc1 hne hs
        have hst := click_match_storage now cardId g i i1 c c1 hp hf hc hfl hm hfc hc1 hne hs
        have hlast : 2 * (g.matchedPairs + 1) = g.cards.length := by
          by_contra hcon
          rw [e9, if_neg hcon] at hcomp
          omega
        rw [if_pos hlast] at hst
        have hsc := hinv.scoreEq
        have hdeck := hinv.deck
        have h800 : (g.score : Int) + 100 = 800 := by omega
        rw [h800] at hst
        refine ⟨by rw [e5]; omega, _, rfl, ⟨_, hst, sort_perm _ _, sort_compareScores_sorted _,
          fun s => sort_compareScores_stable s _⟩, ?_, ?_⟩
        · intro hlen
          rw [hst]
          unfold pushSortSplice
          have hperm := sort_perm compareScores (g.memoryHighScores ++
            [({ score := 800, moves := (g.moves : Int) + 1, time := elapsed now g,
                date := now } : HighScoreEntry)])
          have hl := hperm.length_eq
          simp only [List.length_append, List.length_singleton] at hl
          rw [List.take_of_length_le (by omega)]
          exact hperm.symm.subset (by simp)
        · intro hlen hall
          rw [hst]
          exact pushSortSplice_full _ _ hlen hall
      · rw [click_mismatch now cardId g i i1 c c1 hp hf hc hfl hm hfc hc1 hne hs] at hcomp
        simp at hcomp

/-- Witness for C10: the last click of an unshuffled game, played over an empty
storage, where the entry of score 800 is stored, and over a storage that already
holds ten entries of score 800, which stays as it was. -/
theorem score_invariant_witness :
    Reachable lastClickFresh ∧ lastClickFresh.score = 100 * lastClickFresh.matchedPairs ∧
      (handleCardClick 16000 15 lastClickFresh).score = 800 ∧
      ({ score := 800, moves := 8, time := 16, date := 16000 } : HighScoreEntry) ∈
        (handleCardClick 16000 15 lastClickFresh).memoryHighScores ∧
      (handleCardClick 16000 15 lastClickGame).memoryHighScores = lastClickGame.memoryHighScores := by
  have hr : Reachable lastClickFresh :=
    reachable_run _ _ (Reachable.start 0 randSelf (constructed []))
  have hr2 : Reachable lastClickGame :=
    reachable_run _ _ (Reachable.start 0 randSelf (constructed fullStorage))
  obtain ⟨h1, entry, hentry, -, hmem, -⟩ :=
    (score_invariant lastClickFresh hr).2.2.2.2 16000 15 (by decide)
  obtain ⟨-, entry2, -, -, -, hfull⟩ :=
    (score_invariant lastClickGame hr2).2.2.2.2 16000 15 (by decide)
  have hval : entry = { score := 800, moves := 8, time := 16, date := 16000 } := by
    rw [hentry]
    decide
  rw [← hval]
  exact ⟨hr, (score_invariant lastClickFresh hr).1, h1, hmem (by decide),
    hfull (by decide) (by decide)⟩

end MemoryGame
